import Mathlib

/-!
Verification development for the SCPOG proof checker
(`src/cpog/checker/cpog-check.c`).

The C program is shallowly embedded: every definition below mirrors a
function or data structure of `cpog-check.c`, with machine `int`s modelled
as `Int` (literal magnitudes in this program stay far below `2^31`, and no
arithmetic in the modelled fragment overflows), C arrays modelled as total
maps or lists, and the fatal `err_printf`/`exit(1)` path modelled as an
`Except` error.  Definitions whose name matches a C symbol are direct
transcriptions of that symbol; spec-side definitions used for refinement
comparisons carry a `spec_` name and a comment naming the spec sentence
they transcribe.
-/

set_option linter.unusedVariables false

namespace Scpog

/-- Clause type tags, from `clause_type_t` in cpog-check.c. -/
inductive ClauseType where
  | input
  | tseitin
  | disable
  | skolem
  | structural
  | root
  | forward
  | unknown
deriving DecidableEq, Repr, Inhabited, BEq

/-- POG node type tags, from `node_type_t` in cpog-check.c
(`NODE_PRODUCT, NODE_SKOLEM, NODE_SUM, NODE_NONE`). -/
inductive NodeType where
  | product
  | skolem
  | sum
  | nonode
deriving DecidableEq, Repr, Inhabited, BEq

/-- Fatal error classes.  In the C code every one of these is an
`err_printf` call that prints a diagnostic and exits with status 1; the
constructor records which diagnostic fires and its key parameters. -/
inductive CErr where
  | duplicateClauseId (cid : Int)
  | clauseTooLong
  | alreadyHole (bid pos : Nat)
  | varOutOfRange (lit : Int)
  | missingTerminator (tcid : Int)
  | rupFailure (tcid : Int)
  | conflictBeforeEnd (tcid : Int)
  | invalidHint (tcid h : Int)
  | incompatibleHintType (tcid : Int)
  | nonPropagatingHint (tcid h : Int)
  | invalidNodeId (id : Int)
  | nodeIdInUse (id : Int)
  | notDataVariable (lit : Int)
  | nnfViolation (lit : Int)
  | dependencyViolation (v : Int)
  | implicitDeletionFailed (cid : Int)
deriving DecidableEq, Repr

/-! ## Literal set (`lset_*`)

The C code keeps a generation-stamped array `lset_array` indexed by
`var - 1`, together with `lset_generation` and the allocated size
`lset_asize`.  An entry equal to `+generation` means the positive literal
is in the set, `-generation` the negative one, anything else means the
variable is unassigned.  The array is modelled as a total map `Int → Int`
from 0-based index to stamp; `calloc`/`realloc` zero-initialisation is
captured by the well-formedness invariant `Lset.Wf`. -/

/-- `MIN_SIZE` macro. -/
def MIN_SIZE : Int := 10

structure Lset where
  gen : Int
  asize : Int
  arr : Int → Int

/-- Well-formedness: the generation counter is positive (it starts at 1 in
`lset_init` and is only ever incremented / reset to 1), the size is
nonnegative, and all entries at or beyond the allocated size are zero
(calloc/realloc semantics). -/
def Lset.Wf (s : Lset) : Prop :=
  1 ≤ s.gen ∧ 0 ≤ s.asize ∧ ∀ i : Int, s.asize ≤ i → s.arr i = 0

/-- `lset_init`: allocate a zeroed array of size `max MIN_SIZE var` and
reset the generation to 1. -/
def lset_init (var : Int) : Lset :=
  ⟨1, max MIN_SIZE var, fun _ => 0⟩

/-- `lset_clear`: bump the generation; on (32-bit) wrap-around the C code
zeroes the array and resets the generation to 1.  The wrap branch is kept
although unbounded `Int` never takes it. -/
def lset_clear (s : Lset) : Lset :=
  if s.gen + 1 < 0 then ⟨1, s.asize, fun _ => 0⟩
  else ⟨s.gen + 1, s.asize, s.arr⟩

/-- `lset_check_size`: grow the array so that index `var - 1` is valid.
The C growth factor `GROW_RATIO = 1.45` (computed in floating point and
truncated) is modelled as exact `* 29 / 20`; the grown region is zeroed
by `calloc`/the explicit zeroing loop, which the total-map model together
with `Lset.Wf` captures. -/
def lset_check_size (s : Lset) (var : Int) : Lset :=
  if var ≤ s.asize then s
  else if s.asize = 0 then lset_init var
  else ⟨s.gen, max (s.asize * 29 / 20) var, s.arr⟩

/-- Decoding of one stamp-array entry `e` under generation `g` for
variable `v` (the body of `lset_get_lit`). -/
def stamp (g e v : Int) : Int :=
  if e = g then v else if e = -g then -v else 0

/-- `lset_get_lit`: which literal of `var` is currently in the set
(0 if neither). -/
def lset_get_lit (s : Lset) (var : Int) : Int :=
  if var ≤ 0 ∨ var > s.asize then 0 else stamp s.gen (s.arr (var - 1)) var

/-- `lset_add_lit`: attempt to add a literal; returns `false` (leaving the
stamp array unwritten) exactly when the entry already holds a different
nonzero literal of the same variable. -/
def lset_add_lit (s : Lset) (lit : Int) : Bool × Lset :=
  if lset_get_lit (lset_check_size s |lit|) |lit| ≠ 0 ∧
     lset_get_lit (lset_check_size s |lit|) |lit| ≠ lit then
    (false, lset_check_size s |lit|)
  else
    (true, ⟨(lset_check_size s |lit|).gen, (lset_check_size s |lit|).asize,
            fun i => if i = |lit| - 1 then
                (if lit > 0 then (lset_check_size s |lit|).gen
                 else -(lset_check_size s |lit|).gen)
              else (lset_check_size s |lit|).arr i⟩)

theorem stamp_zero (g v : Int) (hg : 1 ≤ g) : stamp g 0 v = 0 := by
  unfold stamp
  rw [if_neg (by omega), if_neg (by omega)]

theorem grow_ratio_ge (a : Int) (ha : 0 ≤ a) : a ≤ a * 29 / 20 := by
  have h1 : a * 20 ≤ a * 29 := by nlinarith
  calc a = a * 20 / 20 := by
            rw [Int.mul_ediv_cancel _ (by norm_num)]
       _ ≤ a * 29 / 20 := Int.ediv_le_ediv (by norm_num) h1

theorem lset_check_size_asize (s : Lset) (var : Int) (h : s.Wf) :
    s.asize ≤ (lset_check_size s var).asize ∧ var ≤ (lset_check_size s var).asize := by
  have hg := grow_ratio_ge s.asize h.2.1
  have hm1 := le_max_left (s.asize * 29 / 20) var
  have hm2 := le_max_right (s.asize * 29 / 20) var
  have hi1 : MIN_SIZE ≤ max MIN_SIZE var := le_max_left _ _
  have hi2 : var ≤ max MIN_SIZE var := le_max_right _ _
  have hms : MIN_SIZE = 10 := rfl
  unfold lset_check_size lset_init
  split
  · rename_i hvar
    exact ⟨le_rfl, hvar⟩
  · split
    · rename_i h1 h2
      dsimp only
      constructor
      · rw [h2]; omega
      · exact hi2
    · dsimp only
      exact ⟨le_trans hg hm1, hm2⟩

theorem lset_check_size_wf (s : Lset) (var : Int) (h : s.Wf) :
    (lset_check_size s var).Wf := by
  have hg := grow_ratio_ge s.asize h.2.1
  have hm1 := le_max_left (s.asize * 29 / 20) var
  have hms : MIN_SIZE = 10 := rfl
  have hi1 : MIN_SIZE ≤ max MIN_SIZE var := le_max_left _ _
  unfold lset_check_size lset_init
  split
  · exact h
  · split
    · refine ⟨le_refl 1, ?_, fun i _ => rfl⟩
      dsimp only
      omega
    · refine ⟨h.1, ?_, fun i hi => h.2.2 i ?_⟩
      · dsimp only
        have := h.2.1
        omega
      · dsimp only at hi
        have := h.2.1
        omega

theorem lset_check_size_get (s : Lset) (var v : Int) (h : s.Wf) :
    lset_get_lit (lset_check_size s var) v = lset_get_lit s v := by
  have hle := (lset_check_size_asize s var h).1
  have hwf := lset_check_size_wf s var h
  unfold lset_get_lit
  by_cases hv : v ≤ 0
  · rw [if_pos (Or.inl hv), if_pos (Or.inl hv)]
  · by_cases hin : v > s.asize
    · rw [if_pos (Or.inr hin)]
      by_cases hin2 : v > (lset_check_size s var).asize
      · rw [if_pos (Or.inr hin2)]
      · rw [if_neg (by push_neg; omega)]
        have hz : (lset_check_size s var).arr (v - 1) = 0 := by
          unfold lset_check_size lset_init
          split
          · exact h.2.2 _ (by omega)
          · split
            · rfl
            · exact h.2.2 _ (by omega)
        rw [hz, stamp_zero _ _ hwf.1]
    · -- v within the original array: gen and entry are unchanged
      rw [if_neg (by push_neg; omega), if_neg (by push_neg; omega)]
      unfold lset_check_size lset_init
      split
      · rfl
      · split
        · rename_i h1 h2
          omega
        · rfl

theorem lset_add_lit_wf (s : Lset) (lit : Int) (h : s.Wf) :
    ((lset_add_lit s lit).2).Wf := by
  have hw := lset_check_size_wf s |lit| h
  have ha := (lset_check_size_asize s |lit| h).2
  have habs : 0 ≤ |lit| := abs_nonneg lit
  unfold lset_add_lit
  split
  · exact hw
  · refine ⟨hw.1, hw.2.1, fun i hi => ?_⟩
    dsimp only at hi ⊢
    rw [if_neg (by omega)]
    exact hw.2.2 i hi

/-- Claim C10: `lset_add_lit l` returns `false` iff the set currently
holds the opposite literal `-l`, in which case the set is observably
unchanged; otherwise it returns `true`, afterwards `lset_get_lit |l| = l`,
and every other variable's entry is unchanged. -/
theorem lset_add_lit_spec (s : Lset) (l : Int) (hw : s.Wf) (hl : l ≠ 0) :
    ((lset_add_lit s l).1 = false ↔ lset_get_lit s |l| = -l)
    ∧ ((lset_add_lit s l).1 = false →
        ∀ v, lset_get_lit (lset_add_lit s l).2 v = lset_get_lit s v)
    ∧ ((lset_add_lit s l).1 = true →
        lset_get_lit (lset_add_lit s l).2 |l| = l
        ∧ ∀ v, v ≠ |l| → lset_get_lit (lset_add_lit s l).2 v = lset_get_lit s v) := by
  have hget : ∀ v, lset_get_lit (lset_check_size s |l|) v = lset_get_lit s v :=
    fun v => lset_check_size_get s |l| v hw
  have hle := (lset_check_size_asize s |l| hw).2
  have hw1 := lset_check_size_wf s |l| hw
  have hgen := hw1.1
  have habs : 1 ≤ |l| := by
    rcases lt_or_gt_of_ne hl with h | h
    · rw [abs_of_neg h]; omega
    · rw [abs_of_pos h]; omega
  have hlabs : l = |l| ∨ l = -|l| := by
    rcases abs_cases l with ⟨h1, _⟩ | ⟨h1, _⟩
    · exact Or.inl h1.symm
    · exact Or.inr (by omega)
  -- the stored literal for |l| is |l|, -|l| or 0
  have hcases : lset_get_lit s |l| = |l| ∨ lset_get_lit s |l| = -|l|
      ∨ lset_get_lit s |l| = 0 := by
    unfold lset_get_lit stamp
    split
    · right; right; rfl
    · split
      · left; rfl
      · split
        · right; left; rfl
        · right; right; rfl
  refine ⟨?_, ?_, ?_⟩
  · -- return value characterisation
    unfold lset_add_lit
    split
    · rename_i hcond
      rw [hget] at hcond
      dsimp only
      simp only [eq_self_iff_true, true_iff]
      rcases hcases with hc | hc | hc <;> rcases hlabs with he | he <;> omega
    · rename_i hcond
      rw [not_and_or] at hcond
      simp only [not_not] at hcond
      rw [hget] at hcond
      dsimp only
      constructor
      · intro hct; exact absurd hct (by simp)
      · intro hopp
        exfalso
        rcases hcond with hc | hc <;> rw [hopp] at hc <;> omega
  · -- false: set observably unchanged
    unfold lset_add_lit
    split
    · intro _ v
      dsimp only
      exact hget v
    · intro hct; exact absurd hct (by simp)
  · -- true: |l| now maps to l, others untouched
    unfold lset_add_lit
    split
    · intro hct; exact absurd hct (by simp)
    · rename_i hcond
      intro _
      constructor
      · -- reading back the written stamp
        dsimp only
        unfold lset_get_lit
        dsimp only
        rw [if_neg (by push_neg; omega), if_pos rfl]
        rcases lt_or_gt_of_ne hl with hneg | hpos
        · rw [if_neg (show ¬ l > 0 from by omega)]
          unfold stamp
          rw [if_neg (by omega), if_pos rfl]
          rcases hlabs with he | he <;> omega
        · rw [if_pos hpos]
          unfold stamp
          rw [if_pos rfl]
          rcases hlabs with he | he <;> omega
      · intro v hv
        dsimp only
        rw [← hget v]
        unfold lset_get_lit
        dsimp only
        by_cases hv0 : v ≤ 0 ∨ v > (lset_check_size s |l|).asize
        · rw [if_pos hv0, if_pos hv0]
        · rw [if_neg hv0, if_neg hv0]
          rw [if_neg (by omega)]

/-- Witness for C10 at a concrete state: the set `{-3}` rejects adding `3`. -/
theorem lset_add_lit_spec_witness :
    (⟨1, 5, fun i => if i = 2 then -1 else 0⟩ : Lset).Wf ∧ (3 : Int) ≠ 0 ∧
    ((lset_add_lit ⟨1, 5, fun i => if i = 2 then -1 else 0⟩ 3).1 = false ↔
      lset_get_lit ⟨1, 5, fun i => if i = 2 then -1 else 0⟩ |(3 : Int)| = -3) := by
  refine ⟨⟨by norm_num, by norm_num, fun i hi => ?_⟩, by norm_num, ?_⟩
  · have hi' : (5 : Int) ≤ i := hi
    show (if i = 2 then (-1 : Int) else 0) = 0
    rw [if_neg (by omega)]
  · exact (lset_add_lit_spec ⟨1, 5, fun i => if i = 2 then -1 else 0⟩ 3
      ⟨by norm_num, by norm_num, fun i hi => by
        have hi' : (5 : Int) ≤ i := hi
        show (if i = 2 then (-1 : Int) else 0) = 0
        rw [if_neg (by omega)]⟩
      (by norm_num)).1

/-! ## RUP engine (`rup_unit_prop`, `rup_run`)

`rup_unit_prop` scans one hint clause against the literal set;
`rup_run` consumes the hint-id token sequence of an `a`/`as`/`d`/mutex
check.  The token stream is modelled as a `List Int` whose elements are
the integer tokens; the terminating 0 is an element of the list, and
running out of list corresponds to the C parse error on a non-integer
token (EOL/EOF).  The clause store is abstracted as a
`lookup : Int → Option (ClauseType × List Int)` giving each hint id its
type tag and literals (without the stored terminating 0); the
store-backed instantiation appears below with the clause store. -/

/-- `RUP_CONFLICT` macro: `INT_MAX`, used by `rup_unit_prop` as the
"no free literal seen yet / all falsified" sentinel.  Literal magnitudes
are bounded by `variable_limit`, far below this sentinel. -/
def RUP_CONFLICT : Int := 2147483647

/-- `RUP_STALL` macro. -/
def RUP_STALL : Int := 0

/-- The literal-scanning loop of `rup_unit_prop`, carrying the candidate
unit `unit` (initially `RUP_CONFLICT`).  A literal equal to the current
candidate is skipped (the `/* Repeated unit literal */` branch); a
satisfied literal stalls the hint; a falsified literal is skipped; a
second free literal stalls the hint. -/
def unit_scan (s : Lset) (unit : Int) : List Int → Int
  | [] => unit
  | lit :: rest =>
    if lit = unit then unit_scan s unit rest
    else if lset_get_lit s |lit| = lit then RUP_STALL
    else if lset_get_lit s |lit| = -lit then unit_scan s unit rest
    else if unit = RUP_CONFLICT then unit_scan s lit rest
    else RUP_STALL

/-- `rup_unit_prop`: result is `RUP_CONFLICT` if every literal of the
hint clause is falsified, `RUP_STALL` if the clause is satisfied or has
two free literals, and otherwise the unique implied (free) literal. -/
def rup_unit_prop (s : Lset) (lits : List Int) : Int :=
  unit_scan s RUP_CONFLICT lits

/-- Intermediate state of `unit_scan`: the pending candidate unit after a
prefix of the clause has been scanned, or `none` if the scan has already
stalled.  Used to state the repeated-literal property compositionally. -/
def scan_pending (s : Lset) (unit : Int) : List Int → Option Int
  | [] => some unit
  | lit :: rest =>
    if lit = unit then scan_pending s unit rest
    else if lset_get_lit s |lit| = lit then none
    else if lset_get_lit s |lit| = -lit then scan_pending s unit rest
    else if unit = RUP_CONFLICT then scan_pending s lit rest
    else none

/-- Hint/target clause-type compatibility: the `switch (htype)` cases of
`rup_run`.  `CLAUSE_TSEITIN` is accepted against every target;
`CLAUSE_SKOLEM` and `CLAUSE_ROOT` only against `CLAUSE_INPUT` targets;
the `default` case (`CLAUSE_UNKNOWN`) is always rejected. -/
def hint_type_ok (htype ttype : ClauseType) : Bool :=
  match htype with
  | .tseitin => true
  | .forward => ttype == .forward || ttype == .root
  | .input => ttype == .forward || ttype == .root || ttype == .input
  | .skolem => ttype == .input
  | .root => ttype == .input
  | .structural => ttype == .forward || ttype == .root || ttype == .structural
  | .disable => ttype == .forward || ttype == .root || ttype == .structural
  | _ => false

/-- The post-conflict consumption loop of `rup_run` (under `early_rup`):
remaining hint ids are read and discarded without clause lookup; at the
terminating 0 the accumulated type-compatibility flag is still enforced. -/
def discard_hints (tcid : Int) (ok : Bool) (s : Lset) : List Int → Except CErr Lset
  | [] => .error (.missingTerminator tcid)
  | h :: rest =>
    if h = 0 then
      if !ok then .error (.incompatibleHintType tcid) else .ok s
    else discard_hints tcid ok s rest

/-- The hint-processing loop of `rup_run`.  `early` is the global
`early_rup` (initialised `true` and never written: no command-line flag
clears it); `skip` is `skipping_rup` (set by the commented-out `-l`
flag, `false` by default).  `conflict` and `ok` are the loop variables of
the C function; `s` is the literal set. -/
def rup_run_loop (early skip : Bool) (lookup : Int → Option (ClauseType × List Int))
    (ttype : ClauseType) (tcid : Int) :
    Bool → Bool → Lset → List Int → Except CErr Lset
  | _, _, _, [] => .error (.missingTerminator tcid)
  | conflict, ok, s, h :: rest =>
    if h = 0 then
      if !conflict then .error (.rupFailure tcid)
      else if !ok then .error (.incompatibleHintType tcid)
      else .ok s
    else if conflict then
      if early then discard_hints tcid ok s rest
      else .error (.conflictBeforeEnd tcid)
    else
      match lookup h with
      | none => .error (.invalidHint tcid h)
      | some (htype, lits) =>
        if rup_unit_prop s lits = RUP_CONFLICT then
          rup_run_loop early skip lookup ttype tcid true (ok && hint_type_ok htype ttype) s rest
        else if rup_unit_prop s lits = RUP_STALL then
          if skip then
            rup_run_loop early skip lookup ttype tcid conflict (ok && hint_type_ok htype ttype) s rest
          else .error (.nonPropagatingHint tcid h)
        else
          rup_run_loop early skip lookup ttype tcid conflict (ok && hint_type_ok htype ttype)
            (lset_add_lit s (rup_unit_prop s lits)).2 rest

/-- `rup_run`: validate target clause `tcid` of type `ttype` by
hint-directed unit propagation, starting from the literal set `s`
(holding the negated target, set up by the caller). -/
def rup_run (early skip : Bool) (lookup : Int → Option (ClauseType × List Int))
    (ttype : ClauseType) (tcid : Int) (s : Lset) (hints : List Int) : Except CErr Lset :=
  rup_run_loop early skip lookup ttype tcid false true s hints

/-- Does an `Except` result denote success? -/
def isOkay {α β : Type} (e : Except α β) : Bool :=
  match e with
  | .ok _ => true
  | .error _ => false

/-- Transcription of the spec-side success condition of claim C1
("unit propagation from the negated target clause, applying the hinted
clauses in the given order, reaches a conflict no later than the
terminating 0 of the hint list"): every hint up to the conflict must
resolve and propagate a unit, and some hint before the first 0 must be
fully falsified. -/
def spec_reaches_conflict (lookup : Int → Option (ClauseType × List Int)) :
    Lset → List Int → Bool
  | _, [] => false
  | s, h :: rest =>
    if h = 0 then false
    else
      match lookup h with
      | none => false
      | some (_, lits) =>
        if rup_unit_prop s lits = RUP_CONFLICT then true
        else if rup_unit_prop s lits = RUP_STALL then false
        else spec_reaches_conflict lookup (lset_add_lit s (rup_unit_prop s lits)).2 rest

/-- Spec-side: the propagation runs cleanly to the terminating 0 (every
hint resolves and propagates a unit) without ever reaching a conflict. -/
def spec_propagates_clean (lookup : Int → Option (ClauseType × List Int)) :
    Lset → List Int → Bool
  | _, [] => false
  | s, h :: rest =>
    if h = 0 then true
    else
      match lookup h with
      | none => false
      | some (_, lits) =>
        if rup_unit_prop s lits = RUP_CONFLICT then false
        else if rup_unit_prop s lits = RUP_STALL then false
        else spec_propagates_clean lookup (lset_add_lit s (rup_unit_prop s lits)).2 rest

/-- All hint clauses looked up before (and including) the conflict point
pass the `hint_type_ok` compatibility test against the target type. -/
def hints_legal_to_conflict (lookup : Int → Option (ClauseType × List Int))
    (ttype : ClauseType) : Lset → List Int → Bool
  | _, [] => true
  | s, h :: rest =>
    if h = 0 then true
    else
      match lookup h with
      | none => true
      | some (htype, lits) =>
        hint_type_ok htype ttype &&
          (if rup_unit_prop s lits = RUP_CONFLICT then true
           else if rup_unit_prop s lits = RUP_STALL then true
           else hints_legal_to_conflict lookup ttype (lset_add_lit s (rup_unit_prop s lits)).2 rest)

/-- Scanning a clause decomposes along list append through the pending
candidate unit. -/
theorem unit_scan_append (s : Lset) (xs : List Int) :
    ∀ (u : Int) (ys : List Int),
      unit_scan s u (xs ++ ys) =
        match scan_pending s u xs with
        | none => RUP_STALL
        | some u2 => unit_scan s u2 ys := by
  induction xs with
  | nil => intro u ys; rfl
  | cons x xs ih =>
    intro u ys
    simp only [List.cons_append, unit_scan, scan_pending]
    by_cases h1 : x = u
    · rw [if_pos h1, if_pos h1]
      exact ih u ys
    · rw [if_neg h1, if_neg h1]
      by_cases h2 : lset_get_lit s |x| = x
      · rw [if_pos h2, if_pos h2]
      · rw [if_neg h2, if_neg h2]
        by_cases h3 : lset_get_lit s |x| = -x
        · rw [if_pos h3, if_pos h3]
          exact ih u ys
        · rw [if_neg h3, if_neg h3]
          by_cases h4 : u = RUP_CONFLICT
          · rw [if_pos h4, if_pos h4]
            exact ih x ys
          · rw [if_neg h4, if_neg h4]

/-- Counterexample to claim C7 as stated.  Scanning the hint clause
`[1, -1]` against an empty literal set deduces the unit `1` from the
first literal; the second literal `-1` has the same *variable* as that
unit but is not ignored: the scan stalls (`RUP_STALL`), while scanning
`[1]` alone yields the unit `1`.  So a literal is only skipped when it is
identical to the deduced unit, not when its variable matches. -/
theorem rup_unit_prop_var_not_ignored :
    unit_scan ⟨1, 5, fun _ => 0⟩ RUP_CONFLICT [1] = 1
    ∧ |(-1 : Int)| = |(1 : Int)|
    ∧ rup_unit_prop ⟨1, 5, fun _ => 0⟩ [1, -1] = RUP_STALL
    ∧ rup_unit_prop ⟨1, 5, fun _ => 0⟩ [1] = 1 := by
  refine ⟨?_, by norm_num, ?_, ?_⟩ <;> decide

/-- Claim C7 amended: a literal *identical* to the previously deduced
unit of the current hint-clause scan is ignored; a hint clause that
repeats its deduced unit is tolerated (it neither changes the result nor
stalls on account of the repetition, so it cannot by itself raise
`NonPropagatingHint`). -/
theorem rup_unit_prop_repeated_unit (s : Lset) (xs ys : List Int) (u : Int)
    (h : scan_pending s RUP_CONFLICT xs = some u) :
    rup_unit_prop s (xs ++ u :: ys) = rup_unit_prop s (xs ++ ys) := by
  unfold rup_unit_prop
  rw [unit_scan_append, unit_scan_append, h]
  simp [unit_scan]

/-- Witness for the amended C7 on a concrete scan: prefix `[1]` deduces
unit `1`, and repeating that literal leaves the result unchanged. -/
theorem rup_unit_prop_repeated_unit_witness :
    scan_pending ⟨1, 5, fun _ => 0⟩ RUP_CONFLICT [1] = some 1
    ∧ rup_unit_prop ⟨1, 5, fun _ => 0⟩ ([1] ++ 1 :: [-2]) =
        rup_unit_prop ⟨1, 5, fun _ => 0⟩ ([1] ++ [-2]) :=
  ⟨by decide, rup_unit_prop_repeated_unit ⟨1, 5, fun _ => 0⟩ [1] [-2] 1 (by decide)⟩

theorem discard_hints_ok (tcid : Int) (s : Lset) :
    ∀ hints : List Int, (0 : Int) ∈ hints → discard_hints tcid true s hints = .ok s := by
  intro hints
  induction hints with
  | nil => intro h; simp at h
  | cons h rest ih =>
    intro hmem
    by_cases h0 : h = 0
    · subst h0
      simp [discard_hints]
    · have hmem' : (0 : Int) ∈ rest := by
        rcases List.mem_cons.mp hmem with he | he
        · exact absurd he.symm h0
        · exact he
      simp only [discard_hints]
      rw [if_neg h0]
      exact ih hmem'

theorem discard_hints_bad (tcid : Int) (s : Lset) :
    ∀ hints : List Int, (0 : Int) ∈ hints →
      discard_hints tcid false s hints = .error (.incompatibleHintType tcid) := by
  intro hints
  induction hints with
  | nil => intro h; simp at h
  | cons h rest ih =>
    intro hmem
    by_cases h0 : h = 0
    · subst h0
      simp [discard_hints]
    · have hmem' : (0 : Int) ∈ rest := by
        rcases List.mem_cons.mp hmem with he | he
        · exact absurd he.symm h0
        · exact he
      simp only [discard_hints]
      rw [if_neg h0]
      exact ih hmem'

/-- Once the conflict flag is set (with the type-compatibility flag still
true), the loop under `early_rup` succeeds as soon as the terminator
appears, discarding everything before it. -/
theorem rup_run_loop_after_conflict (skip : Bool)
    (lookup : Int → Option (ClauseType × List Int)) (ttype : ClauseType)
    (tcid : Int) (s : Lset) :
    ∀ hints : List Int, (0 : Int) ∈ hints →
      rup_run_loop true skip lookup ttype tcid true true s hints = .ok s := by
  intro hints hmem
  cases hints with
  | nil => simp at hmem
  | cons h rest =>
    by_cases h0 : h = 0
    · subst h0
      simp [rup_run_loop]
    · have hmem' : (0 : Int) ∈ rest := by
        rcases List.mem_cons.mp hmem with he | he
        · exact absurd he.symm h0
        · exact he
      simp only [rup_run_loop]
      rw [if_neg h0]
      simp only [if_pos rfl, Bool.not_true, Bool.false_eq_true, if_false, if_true]
      exact discard_hints_ok tcid s rest hmem'

/-- As `rup_run_loop_after_conflict`, but with the compatibility flag
false: the run still consumes the remaining hints and then fails with
`IncompatibleHintType`. -/
theorem rup_run_loop_after_conflict_bad (skip : Bool)
    (lookup : Int → Option (ClauseType × List Int)) (ttype : ClauseType)
    (tcid : Int) (s : Lset) :
    ∀ hints : List Int, (0 : Int) ∈ hints →
      rup_run_loop true skip lookup ttype tcid true false s hints =
        .error (.incompatibleHintType tcid) := by
  intro hints hmem
  cases hints with
  | nil => simp at hmem
  | cons h rest =>
    by_cases h0 : h = 0
    · subst h0
      simp [rup_run_loop]
    · have hmem' : (0 : Int) ∈ rest := by
        rcases List.mem_cons.mp hmem with he | he
        · exact absurd he.symm h0
        · exact he
      simp only [rup_run_loop]
      rw [if_neg h0]
      simp only [if_pos rfl, Bool.not_true, Bool.false_eq_true, if_false, if_true]
      exact discard_hints_bad tcid s rest hmem'

/-- Claim C1: for a clause added with `a`/`as` under the program's actual
configuration (`early_rup = true`, `skipping_rup = false`), provided the
hint stream contains its terminating 0 and every resolvable hint clause
is type-compatible with the target, the RUP check succeeds iff
hint-directed unit propagation from the literal set `s` (the negated
target) reaches a conflict no later than the terminating 0; an early
conflict is accepted with every remaining hint read and discarded, and
clean propagation that reaches the 0 without a conflict is the fatal
`RupFailure`. -/
theorem rup_run_spec (lookup : Int → Option (ClauseType × List Int))
    (ttype : ClauseType) (tcid : Int) (s : Lset) (hints : List Int)
    (hterm : (0 : Int) ∈ hints)
    (htypes : hints.all (fun h =>
        match lookup h with
        | some (ht, _) => hint_type_ok ht ttype
        | none => true) = true) :
    (isOkay (rup_run true false lookup ttype tcid s hints) = true ↔
      spec_reaches_conflict lookup s hints = true)
    ∧ (spec_propagates_clean lookup s hints = true →
        rup_run true false lookup ttype tcid s hints = .error (.rupFailure tcid)) := by
  unfold rup_run
  revert hterm htypes
  induction hints generalizing s with
  | nil =>
    intro hterm htypes
    simp at hterm
  | cons h rest ih =>
    intro hterm htypes
    rw [List.all_cons, Bool.and_eq_true] at htypes
    obtain ⟨hhead, htail⟩ := htypes
    by_cases h0 : h = 0
    · subst h0
      constructor
      · simp [rup_run_loop, spec_reaches_conflict, isOkay]
      · intro _
        simp [rup_run_loop]
    · have hterm' : (0 : Int) ∈ rest := by
        rcases List.mem_cons.mp hterm with he | he
        · exact absurd he.symm h0
        · exact he
      cases hlk : lookup h with
      | none =>
        constructor
        · simp [rup_run_loop, spec_reaches_conflict, isOkay, h0, hlk]
        · intro hsp
          rw [spec_propagates_clean, if_neg h0, hlk] at hsp
          simp at hsp
      | some pr =>
        obtain ⟨ht, lits⟩ := pr
        have hok : hint_type_ok ht ttype = true := by
          rw [hlk] at hhead
          exact hhead
        simp only [rup_run_loop, spec_reaches_conflict, spec_propagates_clean]
        rw [if_neg h0, if_neg h0, if_neg h0, hlk]
        simp only [Bool.false_eq_true, if_false, Bool.true_and, hok, Bool.and_true]
        by_cases hc : rup_unit_prop s lits = RUP_CONFLICT
        · rw [if_pos hc, if_pos hc]
          rw [rup_run_loop_after_conflict false lookup ttype tcid s rest hterm']
          constructor
          · simp [isOkay]
          · intro hsp
            simp at hsp
            exact absurd hc hsp.1
        · rw [if_neg hc, if_neg hc, if_neg hc]
          by_cases hst : rup_unit_prop s lits = RUP_STALL
          · rw [if_pos hst, if_pos hst]
            simp only [Bool.false_eq_true, if_false]
            constructor
            · simp [isOkay]
            · intro hsp
              simp at hsp
              exact absurd hst hsp.1
          · rw [if_neg hst, if_neg hst, if_neg hst]
            exact ih (lset_add_lit s (rup_unit_prop s lits)).2 hterm' htail

/-- Witness for C1 on a concrete run: hint clause 5 is the empty clause
(type TSEITIN), so the single hint conflicts immediately and the check
succeeds. -/
theorem rup_run_spec_witness :
    (0 : Int) ∈ [(5 : Int), 0]
    ∧ ([(5 : Int), 0].all (fun h =>
        match (fun c => if c = (5 : Int)
            then some (ClauseType.tseitin, ([] : List Int)) else none) h with
        | some (ht, _) => hint_type_ok ht ClauseType.forward
        | none => true) = true)
    ∧ (isOkay (rup_run true false
        (fun c => if c = (5 : Int) then some (ClauseType.tseitin, ([] : List Int)) else none)
        ClauseType.forward 9 ⟨1, 5, fun _ => 0⟩ [5, 0]) = true ↔
      spec_reaches_conflict
        (fun c => if c = (5 : Int) then some (ClauseType.tseitin, ([] : List Int)) else none)
        ⟨1, 5, fun _ => 0⟩ [5, 0] = true) :=
  ⟨by decide, by decide,
    (rup_run_spec
      (fun c => if c = (5 : Int) then some (ClauseType.tseitin, ([] : List Int)) else none)
      ClauseType.forward 9 ⟨1, 5, fun _ => 0⟩ [5, 0] (by decide) (by decide)).1⟩

/-- When a conflict is reached, the run fails with
`IncompatibleHintType` exactly when some hint applied on the way to the
conflict has an incompatible type, no matter the initial flag value. -/
theorem rup_run_loop_illegal (lookup : Int → Option (ClauseType × List Int))
    (ttype : ClauseType) (tcid : Int) :
    ∀ (hints : List Int) (s : Lset) (ok : Bool), (0 : Int) ∈ hints →
      spec_reaches_conflict lookup s hints = true →
      (ok && hints_legal_to_conflict lookup ttype s hints) = false →
      rup_run_loop true false lookup ttype tcid false ok s hints =
        .error (.incompatibleHintType tcid) := by
  intro hints
  induction hints with
  | nil =>
    intro s ok hterm
    simp at hterm
  | cons h rest ih =>
    intro s ok hterm hconf hbad
    by_cases h0 : h = 0
    · subst h0
      rw [spec_reaches_conflict, if_pos rfl] at hconf
      simp at hconf
    · have hterm' : (0 : Int) ∈ rest := by
        rcases List.mem_cons.mp hterm with he | he
        · exact absurd he.symm h0
        · exact he
      rw [spec_reaches_conflict, if_neg h0] at hconf
      rw [hints_legal_to_conflict, if_neg h0] at hbad
      cases hlk : lookup h with
      | none =>
        rw [hlk] at hconf
        simp at hconf
      | some pr =>
        obtain ⟨ht, lits⟩ := pr
        rw [hlk] at hconf hbad
        dsimp only at hconf hbad
        simp only [rup_run_loop]
        rw [if_neg h0, hlk]
        simp only [Bool.false_eq_true, if_false]
        by_cases hc : rup_unit_prop s lits = RUP_CONFLICT
        · rw [if_pos hc]
          rw [if_pos hc] at hbad
          simp only [Bool.and_true] at hbad
          rw [hbad]
          exact rup_run_loop_after_conflict_bad false lookup ttype tcid s rest hterm'
        · rw [if_neg hc] at hconf ⊢
          by_cases hst : rup_unit_prop s lits = RUP_STALL
          · rw [if_pos hst] at hconf
            simp at hconf
          · rw [if_neg hst] at hconf
            rw [if_neg hc, if_neg hst] at hbad
            rw [if_neg hst]
            exact ih (lset_add_lit s (rup_unit_prop s lits)).2
              (ok && hint_type_ok ht ttype) hterm' hconf
              (by rw [← Bool.and_assoc] at hbad; exact hbad)

/-- Claim C5: the hint/target legality table — TSEITIN hints are legal
for every target type, SKOLEM and ROOT hints only for INPUT targets —
and a RUP run that applies an illegal hint fails fatally with
`IncompatibleHintType` even when propagation reaches a conflict. -/
theorem hint_type_table_spec :
    (∀ t, hint_type_ok ClauseType.tseitin t = true)
    ∧ (∀ t, hint_type_ok ClauseType.skolem t = true ↔ t = ClauseType.input)
    ∧ (∀ t, hint_type_ok ClauseType.root t = true ↔ t = ClauseType.input)
    ∧ (∀ (lookup : Int → Option (ClauseType × List Int)) (ttype : ClauseType)
        (tcid : Int) (s : Lset) (hints : List Int),
        (0 : Int) ∈ hints →
        spec_reaches_conflict lookup s hints = true →
        hints_legal_to_conflict lookup ttype s hints = false →
        rup_run true false lookup ttype tcid s hints =
          .error (.incompatibleHintType tcid)) := by
  refine ⟨fun t => rfl, fun t => ?_, fun t => ?_, ?_⟩
  · cases t <;> decide
  · cases t <;> decide
  · intro lookup ttype tcid s hints hterm hconf hbad
    exact rup_run_loop_illegal lookup ttype tcid hints s true hterm hconf
      (by rw [Bool.true_and]; exact hbad)

/-- Witness for C5 on a concrete run: the target is a FORWARD clause,
hint clause 5 is an empty SKOLEM clause — propagation conflicts at once,
but the SKOLEM/FORWARD combination is illegal and the run fails with
`IncompatibleHintType`. -/
theorem hint_type_table_spec_witness :
    rup_run true false
        (fun c => if c = (5 : Int) then some (ClauseType.skolem, ([] : List Int)) else none)
        ClauseType.forward 9 ⟨1, 5, fun _ => 0⟩ [5, 0] =
      .error (.incompatibleHintType 9) :=
  hint_type_table_spec.2.2.2
    (fun c => if c = (5 : Int) then some (ClauseType.skolem, ([] : List Int)) else none)
    ClauseType.forward 9 ⟨1, 5, fun _ => 0⟩ [5, 0] (by decide) (by decide) (by decide)

/-! ## Clause store

The store keeps payloads in 4 MiB chunks (`chunk_set`, modelled as
`chunks : List (List Int)` holding the *used* prefix of each chunk, so
`chunk_used` is the length of the last entry) and locates clauses through
blocks of consecutive ids (`clause_block_t`): within a block, position =
id − start_id; hole slots (padding for skipped ids) carry chunk = −1,
offset = −1 and type `UNKNOWN`.  `input_clause_count` and
`variable_limit` are C globals, passed here as explicit `icc` / `ivc` /
`vlimit` arguments. -/

/-- `MAX_GAP` macro. -/
def MAX_GAP : Int := 10

/-- `CHUNK_SIZE` macro (`1 << 20` ints). -/
def CHUNK_SIZE : Int := 1048576

structure ClauseBlock where
  start_id : Int
  length : Int
  chunk : List Int
  offset : List Int
  types : List ClauseType
deriving DecidableEq, Repr, Inhabited

structure ClauseDB where
  chunks : List (List Int)
  clause_count : Int
  clause_last_id : Int
  current_clause : List Int
  blocks : List ClauseBlock
deriving DecidableEq, Repr, Inhabited

/-- `clause_init`: one zeroed chunk, one block starting at id 1. -/
def clause_init : ClauseDB :=
  ⟨[[]], 0, 0, [], [⟨1, 0, [], [], []⟩]⟩

/-- Apply `f` to the final element of a list (mutation of the current
block / current chunk in the C code). -/
def update_last {α : Type} (f : α → α) : List α → List α
  | [] => []
  | [a] => [f a]
  | a :: rest => a :: update_last f rest

/-- One iteration of the hole-padding loop in `start_clause`: push
`(-1, -1, UNKNOWN)` onto the current block. -/
def pad_hole (b : ClauseBlock) : ClauseBlock :=
  ⟨b.start_id, b.length + 1, b.chunk ++ [-1], b.offset ++ [-1],
   b.types ++ [ClauseType.unknown]⟩

/-- The hole-padding loop of `start_clause`, run `k` times on the current
block. -/
def pad_last (blocks : List ClauseBlock) : Nat → List ClauseBlock
  | 0 => blocks
  | k + 1 => pad_last (update_last pad_hole blocks) k

/-- `start_clause`: begin clause `cid`.  Fails (`err_printf`) when the id
does not exceed every previously assigned id; opens a new block when the
gap exceeds `MAX_GAP` or when crossing from the input-clause id space
(still on the first block) into non-input ids; otherwise pads the current
block with hole slots for the skipped ids. -/
def start_clause (icc : Int) (db : ClauseDB) (cid : Int) : Except CErr ClauseDB :=
  if cid ≤ db.clause_last_id then .error (.duplicateClauseId cid)
  else
    let db1 :=
      if cid > db.clause_last_id + MAX_GAP ∨ (db.blocks.length = 1 ∧ cid > icc) then
        { db with blocks := db.blocks ++ [⟨cid, 0, [], [], []⟩] }
      else
        { db with blocks := pad_last db.blocks (cid - db.clause_last_id - 1).toNat }
    .ok { db1 with clause_last_id := cid, clause_count := db1.clause_count + 1,
                   current_clause := [] }

/-- `clause_add_literal`: append a literal (or the terminating 0) to the
clause under construction, enforcing `variable_limit`. -/
def clause_add_literal (ivc vlimit : Int) (db : ClauseDB) (lit : Int) :
    Except CErr ClauseDB :=
  if |lit| > ivc ∧ |lit| > vlimit then .error (.varOutOfRange lit)
  else .ok { db with current_clause := db.current_clause ++ [lit] }

/-- `finish_clause`: copy the completed literal run into the current
chunk (starting a fresh chunk when it would not fit) and record
`(chunk, offset, type)` in the current block. -/
def finish_clause (db : ClauseDB) (ty : ClauseType) : Except CErr ClauseDB :=
  if (db.current_clause.length : Int) > CHUNK_SIZE then .error .clauseTooLong
  else
    let chunks2 :=
      if (db.current_clause.length : Int) +
          ((db.chunks.getLast?.getD []).length : Int) > CHUNK_SIZE then
        db.chunks ++ [[]]
      else db.chunks
    let cidx : Int := (chunks2.length : Int) - 1
    let pos : Int := ((chunks2.getLast?.getD []).length : Int)
    .ok { db with
          chunks := update_last (fun c => c ++ db.current_clause) chunks2,
          blocks := update_last (fun b =>
            ⟨b.start_id, b.length + 1, b.chunk ++ [cidx], b.offset ++ [pos],
             b.types ++ [ty]⟩) db.blocks }

/-- The binary search over blocks in `find_clause`. -/
def find_clause_go (blocks : List ClauseBlock) (cid : Int) (lid rid : Nat) :
    Option (Nat × Nat) :=
  if h : lid ≤ rid ∧ rid < blocks.length then
    let bid := (lid + rid) / 2
    if cid - (blocks.getD bid default).start_id < 0 then
      if hz : bid = 0 then none
      else find_clause_go blocks cid lid (bid - 1)
    else if cid - (blocks.getD bid default).start_id ≥
        (blocks.getD bid default).length then
      find_clause_go blocks cid (bid + 1) rid
    else some (bid, (cid - (blocks.getD bid default).start_id).toNat)
  else none
termination_by rid + 1 - lid
decreasing_by
  · omega
  · omega

/-- `find_clause`: locate clause `cid` as a `(block, position)` pair. -/
def find_clause (db : ClauseDB) (cid : Int) : Option (Nat × Nat) :=
  find_clause_go db.blocks cid 0 (db.blocks.length - 1)

/-- The literal run stored for slot `(bid, pos)` (the pointer returned by
`clause_locate`, read up to but excluding the terminating 0).  Holes or
out-of-range slots read from the default chunk/offset `-1`. -/
def stored_lits (db : ClauseDB) (bid pos : Nat) : List Int :=
  ((db.chunks.getD ((db.blocks.getD bid default).chunk.getD pos (-1)).toNat []).drop
      ((db.blocks.getD bid default).offset.getD pos (-1)).toNat).takeWhile (· ≠ 0)

/-- `clause_locate`: payload of an existing clause; `none` for holes
(negative chunk or offset). -/
def clause_locate (db : ClauseDB) (bid pos : Nat) : Option (List Int) :=
  if (db.blocks.getD bid default).chunk.getD pos (-1) < 0 then none
  else if (db.blocks.getD bid default).offset.getD pos (-1) < 0 then none
  else some (stored_lits db bid pos)

/-- `clause_type`: the type tag recorded for slot `(bid, pos)`. -/
def clause_type (db : ClauseDB) (bid pos : Nat) : ClauseType :=
  (db.blocks.getD bid default).types.getD pos ClauseType.unknown

/-- The store mutation performed by a successful `clause_delete`: only
the type tag becomes `UNKNOWN`; chunk, offset and payload stay intact. -/
def clause_delete_mark (db : ClauseDB) (bid pos : Nat) : ClauseDB :=
  { db with
    blocks := db.blocks.set bid
      { db.blocks.getD bid default with
        types := (db.blocks.getD bid default).types.set pos ClauseType.unknown } }

/-- `clause_delete`: delete the clause at `(bid, pos)`.  A slot with a
negative offset (a padding hole) is a fatal error; otherwise the literal
run is scanned against `variable_limit`, the type is set to `UNKNOWN`,
and `true` is returned. -/
def clause_delete (ivc vlimit : Int) (db : ClauseDB) (bid pos : Nat) :
    Except CErr (Bool × ClauseDB) :=
  if 0 ≤ (db.blocks.getD bid default).offset.getD pos (-1) then
    match (stored_lits db bid pos).find?
        (fun lit => decide (|lit| > ivc) && decide (|lit| > vlimit)) with
    | some lit => .error (.varOutOfRange lit)
    | none => .ok (true, clause_delete_mark db bid pos)
  else .error (.alreadyHole bid pos)

/-- The clause store as seen by the RUP engine: `find_clause` +
`clause_type` + `clause_locate`.  (On a hole the C code would pass a null
payload pointer to `rup_unit_prop`; the model folds that into a failed
lookup.) -/
def clause_lookup (db : ClauseDB) (cid : Int) : Option (ClauseType × List Int) :=
  match find_clause db cid with
  | none => none
  | some (bid, pos) =>
    match clause_locate db bid pos with
    | none => none
    | some lits => some (clause_type db bid pos, lits)

theorem list_getD_oob {α : Type} : ∀ (l : List α) (i : Nat) (d : α),
    l.length ≤ i → l.getD i d = d := by
  intro l
  induction l with
  | nil => intro i d _; cases i <;> rfl
  | cons a tl ih =>
    intro i d h
    cases i with
    | zero => simp at h
    | succ n =>
      show tl.getD n d = d
      exact ih n d (by simpa using h)

theorem list_getD_set_self {α : Type} : ∀ (l : List α) (i : Nat) (x d : α),
    i < l.length → (l.set i x).getD i d = x := by
  intro l
  induction l with
  | nil => intro i x d h; simp at h
  | cons a tl ih =>
    intro i x d h
    cases i with
    | zero => rfl
    | succ n =>
      show (tl.set n x).getD n d = x
      exact ih n x d (by simpa using h)

theorem list_getD_set_same {α : Type} : ∀ (l : List α) (i : Nat) (x : α),
    (l.set i x).getD i x = x := by
  intro l i x
  by_cases h : i < l.length
  · exact list_getD_set_self l i x x h
  · rw [List.set_eq_of_length_le (by omega)]
    exact list_getD_oob l i x (by omega)

theorem update_last_length {α : Type} (f : α → α) :
    ∀ l : List α, (update_last f l).length = l.length := by
  intro l
  induction l with
  | nil => rfl
  | cons a rest ih =>
    cases rest with
    | nil => rfl
    | cons b r2 =>
      show (a :: update_last f (b :: r2)).length = (a :: b :: r2).length
      simpa using ih

theorem update_last_getLast? {α : Type} (f : α → α) :
    ∀ l : List α, (update_last f l).getLast? = l.getLast?.map f := by
  intro l
  induction l with
  | nil => rfl
  | cons a rest ih =>
    cases rest with
    | nil => rfl
    | cons b r2 =>
      show (a :: update_last f (b :: r2)).getLast? = ((a :: b :: r2).getLast?).map f
      rw [List.getLast?_cons_cons]
      cases henv : update_last f (b :: r2) with
      | nil =>
        exfalso
        have := update_last_length f (b :: r2)
        rw [henv] at this
        simp at this
      | cons c m =>
        rw [List.getLast?_cons_cons, ← henv, ih]

theorem pad_last_length : ∀ (k : Nat) (l : List ClauseBlock),
    (pad_last l k).length = l.length := by
  intro k
  induction k with
  | zero => intro l; rfl
  | succ n ih =>
    intro l
    show (pad_last (update_last pad_hole l) n).length = l.length
    rw [ih, update_last_length]

theorem pad_last_getLast? : ∀ (k : Nat) (l : List ClauseBlock) (b : ClauseBlock),
    l.getLast? = some b →
    (pad_last l k).getLast? = some ⟨b.start_id, b.length + (k : Int),
      b.chunk ++ List.replicate k (-1), b.offset ++ List.replicate k (-1),
      b.types ++ List.replicate k ClauseType.unknown⟩ := by
  intro k
  induction k with
  | zero =>
    intro l b h
    simpa using h
  | succ n ih =>
    intro l b h
    show (pad_last (update_last pad_hole l) n).getLast? = _
    have h2 : (update_last pad_hole l).getLast? = some (pad_hole b) := by
      rw [update_last_getLast?, h]
      rfl
    rw [ih _ _ h2]
    simp only [pad_hole, Option.some.injEq, ClauseBlock.mk.injEq, true_and]
    refine ⟨by push_cast; ring, ?_, ?_, ?_⟩ <;>
      simp [List.replicate_succ, List.append_assoc]

/-- Transcription of claim C8's opening condition as stated: "the number
of skipped ids (id − last_assigned − 1) exceeds MAX_GAP, or the id is the
first non-input id (the store is still on its single initial block and
the id lies beyond the input-clause range)". -/
def spec_opens_new_block (icc : Int) (db : ClauseDB) (cid : Int) : Prop :=
  cid - db.clause_last_id - 1 > MAX_GAP ∨ (db.blocks.length = 1 ∧ cid > icc)

/-- A concrete store state: two blocks, highest assigned id 20. -/
def db_gap : ClauseDB :=
  ⟨[[1, 0]], 2, 20, [],
   [⟨1, 1, [0], [0], [ClauseType.input]⟩, ⟨20, 1, [0], [0], [ClauseType.tseitin]⟩]⟩

/-- Counterexample to claim C8 as stated: starting clause 31 with last
assigned id 20 skips exactly `MAX_GAP = 10` ids — the claimed condition
("skipped ids exceed MAX_GAP") is false, yet the code opens a new block
(the C test is `cid > clause_last_id + MAX_GAP`, i.e. skipped ≥ MAX_GAP). -/
theorem start_clause_gap_counterexample :
    ¬ spec_opens_new_block 5 db_gap 31
    ∧ (start_clause 5 db_gap 31).map (fun d => d.blocks.length) = .ok 3
    ∧ db_gap.blocks.length = 2 := by
  refine ⟨by norm_num [spec_opens_new_block, db_gap, MAX_GAP], by rfl, by rfl⟩

/-- Claim C8 amended: for `cid` above the last assigned id,
`start_clause` succeeds, and it opens a new block exactly when the number
of skipped ids (`cid - last_assigned - 1`) is at least `MAX_GAP`
(the C test is `cid > clause_last_id + MAX_GAP`, i.e. "exceeds" must read
"is at least") or the store is still on its single initial block with
`cid` beyond the input-clause range; in every other case it pads the
current block with `UNKNOWN`-typed hole slots for each skipped id, so
that (given the block invariant `start_id + length = last_assigned + 1`)
the slot about to be filled for `cid` sits at position
`cid - start_id`. -/
theorem start_clause_spec (icc : Int) (db : ClauseDB) (cid : Int) (b : ClauseBlock)
    (hgt : db.clause_last_id < cid)
    (hlast : db.blocks.getLast? = some b) :
    isOkay (start_clause icc db cid) = true
    ∧ ∀ db', start_clause icc db cid = .ok db' →
      (db'.blocks.length = db.blocks.length + 1 ↔
        (MAX_GAP ≤ cid - db.clause_last_id - 1 ∨ (db.blocks.length = 1 ∧ cid > icc)))
      ∧ (cid > db.clause_last_id + MAX_GAP ∨ (db.blocks.length = 1 ∧ cid > icc) →
          db'.blocks.getLast? = some ⟨cid, 0, [], [], []⟩)
      ∧ (¬(cid > db.clause_last_id + MAX_GAP ∨ (db.blocks.length = 1 ∧ cid > icc)) →
          db'.blocks.getLast? = some ⟨b.start_id,
            b.length + ((cid - db.clause_last_id - 1).toNat : Int),
            b.chunk ++ List.replicate (cid - db.clause_last_id - 1).toNat (-1),
            b.offset ++ List.replicate (cid - db.clause_last_id - 1).toNat (-1),
            b.types ++ List.replicate (cid - db.clause_last_id - 1).toNat ClauseType.unknown⟩
          ∧ (b.start_id + b.length = db.clause_last_id + 1 →
              b.start_id + (b.length + ((cid - db.clause_last_id - 1).toNat : Int)) = cid)) := by
  have hms : MAX_GAP = 10 := rfl
  have hk : ((cid - db.clause_last_id - 1).toNat : Int) = cid - db.clause_last_id - 1 :=
    Int.toNat_of_nonneg (by omega)
  unfold start_clause
  rw [if_neg (by omega)]
  by_cases hopen : cid > db.clause_last_id + MAX_GAP ∨ (db.blocks.length = 1 ∧ cid > icc)
  · rw [if_pos hopen]
    refine ⟨rfl, fun db' heq => ?_⟩
    have hdb : db'.blocks = db.blocks ++ [⟨cid, 0, [], [], []⟩] := by
      cases heq
      rfl
    refine ⟨?_, fun _ => ?_, fun hno => absurd hopen hno⟩
    · rw [hdb]
      simp only [List.length_append, List.length_singleton, true_iff]
      rcases hopen with hcase | hcase
      · left; omega
      · right; exact hcase
    · rw [hdb, List.getLast?_concat]
  · rw [if_neg hopen]
    refine ⟨rfl, fun db' heq => ?_⟩
    have hdb : db'.blocks = pad_last db.blocks (cid - db.clause_last_id - 1).toNat := by
      cases heq
      rfl
    push_neg at hopen
    refine ⟨?_, fun hyes => absurd hyes (by push_neg; exact hopen), fun _ => ?_⟩
    · rw [hdb, pad_last_length]
      constructor
      · intro hcontra
        omega
      · rintro (h | h)
        · omega
        · have := hopen.2 h.1
          omega
    · refine ⟨?_, fun hinv => by omega⟩
      rw [hdb]
      exact pad_last_getLast? _ _ _ hlast

/-- Witness for the amended C8 on `db_gap`: starting clause 25 (skipping
four ids) pads the current block instead of opening a new one. -/
theorem start_clause_spec_witness :
    db_gap.clause_last_id < 25
    ∧ db_gap.blocks.getLast? = some ⟨20, 1, [0], [0], [ClauseType.tseitin]⟩
    ∧ isOkay (start_clause 5 db_gap 25) = true :=
  ⟨by norm_num [db_gap], by rfl,
    (start_clause_spec 5 db_gap 25 ⟨20, 1, [0], [0], [ClauseType.tseitin]⟩
      (by norm_num [db_gap]) (by rfl)).1⟩

/-- A concrete store state for deletion: one input clause `1 -2 0`. -/
def db_del : ClauseDB :=
  ⟨[[1, -2, 0]], 1, 1, [], [⟨1, 1, [0], [0], [ClauseType.input]⟩]⟩

/-- Counterexample to claim C9 as stated: after deleting the stored
clause (its type becomes `UNKNOWN`), a second `clause_delete` of the same
slot succeeds again instead of failing with an AlreadyDeleted violation —
`clause_delete` detects holes by a negative offset, and deletion leaves
the offset intact. -/
theorem clause_delete_double_counterexample :
    (clause_delete 2 2 db_del 0 0).map (fun r => clause_type r.2 0 0) =
      .ok ClauseType.unknown
    ∧ ((clause_delete 2 2 db_del 0 0).bind
        (fun r => clause_delete 2 2 r.2 0 0)).map (fun r => r.1) = .ok true := by
  exact ⟨rfl, rfl⟩

/-- Claim C9 amended: deleting a stored clause (slot with nonnegative
offset) succeeds, sets the slot's type to `UNKNOWN` and leaves the
literal payload addressable (chunk, offset and chunk memory untouched);
attempting to delete a padding-hole slot (negative offset) fails fatally;
but a second deletion of an already-deleted clause succeeds again — the
deletion is not detected, because hole-ness is recorded in the offset,
which deletion does not change. -/
theorem clause_delete_spec (ivc vlimit : Int) (db : ClauseDB) (bid pos : Nat)
    (hscan : (stored_lits db bid pos).find?
        (fun lit => decide (|lit| > ivc) && decide (|lit| > vlimit)) = none) :
    (0 ≤ (db.blocks.getD bid default).offset.getD pos (-1) →
       clause_delete ivc vlimit db bid pos = .ok (true, clause_delete_mark db bid pos)
       ∧ clause_type (clause_delete_mark db bid pos) bid pos = ClauseType.unknown
       ∧ stored_lits (clause_delete_mark db bid pos) bid pos = stored_lits db bid pos
       ∧ isOkay (clause_delete ivc vlimit (clause_delete_mark db bid pos) bid pos) = true)
    ∧ ((db.blocks.getD bid default).offset.getD pos (-1) < 0 →
        clause_delete ivc vlimit db bid pos = .error (.alreadyHole bid pos)) := by
  have hmark : ((clause_delete_mark db bid pos).blocks.getD bid default).chunk =
        (db.blocks.getD bid default).chunk
      ∧ ((clause_delete_mark db bid pos).blocks.getD bid default).offset =
        (db.blocks.getD bid default).offset
      ∧ (clause_delete_mark db bid pos).chunks = db.chunks := by
    unfold clause_delete_mark
    by_cases hb : bid < db.blocks.length
    · rw [list_getD_set_self _ _ _ _ hb]
      exact ⟨rfl, rfl, rfl⟩
    · rw [List.set_eq_of_length_le (by omega)]
      exact ⟨rfl, rfl, rfl⟩
  have hlits : stored_lits (clause_delete_mark db bid pos) bid pos =
      stored_lits db bid pos := by
    unfold stored_lits
    rw [hmark.1, hmark.2.1, hmark.2.2]
  constructor
  · intro hoff
    have hdel : clause_delete ivc vlimit db bid pos =
        .ok (true, clause_delete_mark db bid pos) := by
      unfold clause_delete
      rw [if_pos hoff, hscan]
    refine ⟨hdel, ?_, hlits, ?_⟩
    · unfold clause_type clause_delete_mark
      by_cases hb : bid < db.blocks.length
      · rw [list_getD_set_self _ _ _ _ hb]
        exact list_getD_set_same _ _ _
      · rw [List.set_eq_of_length_le (by omega)]
        have : (db.blocks.getD bid default) = default :=
          list_getD_oob _ _ _ (by omega)
        rw [this]
        rfl
    · unfold clause_delete
      rw [if_pos (by rw [hmark.2.1]; exact hoff)]
      rw [hlits, hscan]
      rfl
  · intro hoff
    unfold clause_delete
    rw [if_neg (by omega)]

/-- Witness for the amended C9 on `db_del`. -/
theorem clause_delete_spec_witness :
    (stored_lits db_del 0 0).find?
        (fun lit => decide (|lit| > 2) && decide (|lit| > 2)) = none
    ∧ (0 ≤ (db_del.blocks.getD 0 default).offset.getD 0 (-1) →
       clause_delete 2 2 db_del 0 0 = .ok (true, clause_delete_mark db_del 0 0)
       ∧ clause_type (clause_delete_mark db_del 0 0) 0 0 = ClauseType.unknown
       ∧ stored_lits (clause_delete_mark db_del 0 0) 0 0 = stored_lits db_del 0 0
       ∧ isOkay (clause_delete 2 2 (clause_delete_mark db_del 0 0) 0 0) = true) :=
  ⟨by rfl, (clause_delete_spec 2 2 db_del 0 0 (by rfl)).1⟩

/-! ## Integer set primitives (`ilist_*`)

Dependency sets are kept as ascending sorted lists of variable ids.  The
C routines assume sorted inputs; `ilist_is_disjoint` reports the first
common element through an out-parameter, modelled here by the
`Option Int` valued `ilist_common`. -/

/-- The common-element search of `ilist_is_disjoint` (the out-parameter
`dup_val`); `none` means the sorted lists are disjoint. -/
def ilist_common : List Int → List Int → Option Int
  | [], _ => none
  | _ :: _, [] => none
  | x :: xs, y :: ys =>
    if x = y then some x
    else if x < y then ilist_common xs (y :: ys)
    else ilist_common (x :: xs) ys

/-- `ilist_union`: merge of two ascending lists, collapsing equal heads. -/
def ilist_union : List Int → List Int → List Int
  | [], ys => ys
  | x :: xs, [] => x :: xs
  | x :: xs, y :: ys =>
    if x < y then x :: ilist_union xs (y :: ys)
    else if y < x then y :: ilist_union (x :: xs) ys
    else x :: ilist_union xs ys

/-- `ilist_find_duplicate`: first adjacent duplicate of a sorted list. -/
def ilist_find_duplicate : List Int → Option Int
  | [] => none
  | [_] => none
  | x :: y :: rest => if x = y then some y else ilist_find_duplicate (y :: rest)

/-- `ilist_deduplicate`: collapse runs of equal elements of a sorted
list. -/
def ilist_deduplicate : List Int → List Int
  | [] => []
  | [x] => [x]
  | x :: y :: rest =>
    if x = y then ilist_deduplicate (y :: rest)
    else x :: ilist_deduplicate (y :: rest)

/-- `ilist_sort`: the C code calls the C library `qsort` with an
ascending comparator; modelled by merge sort. -/
def ilist_sort (l : List Int) : List Int := l.mergeSort

theorem mem_ilist_union : ∀ (xs ys : List Int) (a : Int),
    a ∈ ilist_union xs ys ↔ a ∈ xs ∨ a ∈ ys := by
  intro xs
  induction xs with
  | nil => intro ys a; simp [ilist_union]
  | cons x xs ih =>
    intro ys a
    induction ys with
    | nil => simp [ilist_union]
    | cons y ys ihy =>
      simp only [ilist_union]
      by_cases h1 : x < y
      · rw [if_pos h1]
        simp only [List.mem_cons, ih]
        tauto
      · rw [if_neg h1]
        by_cases h2 : y < x
        · rw [if_pos h2]
          simp only [List.mem_cons, ihy]
          tauto
        · rw [if_neg h2]
          have hxy : x = y := by omega
          simp only [List.mem_cons, ih]
          subst hxy
          tauto

theorem sorted_ilist_union : ∀ xs ys : List Int,
    List.Sorted (· < ·) xs → List.Sorted (· < ·) ys →
    List.Sorted (· < ·) (ilist_union xs ys) := by
  intro xs
  induction xs with
  | nil => intro ys _ hy; simpa [ilist_union] using hy
  | cons x xs ih =>
    intro ys hx hy
    induction ys with
    | nil => simpa [ilist_union] using hx
    | cons y ys ihy =>
      simp only [ilist_union]
      rw [List.sorted_cons] at hx hy
      by_cases h1 : x < y
      · rw [if_pos h1]
        rw [List.sorted_cons]
        refine ⟨?_, ih (y :: ys) hx.2 (List.sorted_cons.mpr hy)⟩
        intro b hb
        rcases (mem_ilist_union xs (y :: ys) b).mp hb with h | h
        · exact hx.1 b h
        · rcases List.mem_cons.mp h with rfl | h
          · exact h1
          · exact lt_trans h1 (hy.1 b h)
      · rw [if_neg h1]
        by_cases h2 : y < x
        · rw [if_pos h2]
          rw [List.sorted_cons]
          refine ⟨?_, ihy hy.2⟩
          intro b hb
          rcases (mem_ilist_union (x :: xs) ys b).mp hb with h | h
          · rcases List.mem_cons.mp h with rfl | h
            · exact h2
            · exact lt_trans h2 (hx.1 b h)
          · exact hy.1 b h
        · rw [if_neg h2]
          have hxy : x = y := by omega
          subst hxy
          rw [List.sorted_cons]
          refine ⟨?_, ih ys hx.2 hy.2⟩
          intro b hb
          rcases (mem_ilist_union xs ys b).mp hb with h | h
          · exact hx.1 b h
          · exact hy.1 b h

theorem ilist_common_none : ∀ xs ys : List Int,
    List.Sorted (· < ·) xs → List.Sorted (· < ·) ys →
    (ilist_common xs ys = none ↔ ∀ a, a ∈ xs → a ∉ ys) := by
  intro xs
  induction xs with
  | nil => intro ys _ _; simp [ilist_common]
  | cons x xs ih =>
    intro ys hx hy
    induction ys with
    | nil => simp [ilist_common]
    | cons y ys ihy =>
      simp only [ilist_common]
      rw [List.sorted_cons] at hx hy
      by_cases h0 : x = y
      · rw [if_pos h0]
        subst h0
        constructor
        · intro h
          exact absurd h (by simp)
        · intro hd
          exact absurd (List.mem_cons_self x ys) (hd x (List.mem_cons_self x xs))
      · rw [if_neg h0]
        by_cases h1 : x < y
        · rw [if_pos h1, ih (y :: ys) hx.2 (List.sorted_cons.mpr hy)]
          constructor
          · intro hd a ha
            rcases List.mem_cons.mp ha with rfl | ha
            · intro hmem
              rcases List.mem_cons.mp hmem with he | hmem
              · exact h0 he
              · have := hy.1 a hmem
                omega
            · exact hd a ha
          · intro hd a ha
            exact hd a (List.mem_cons_of_mem x ha)
        · rw [if_neg h1, ihy hy.2]
          constructor
          · intro hd a ha hmem
            rcases List.mem_cons.mp hmem with rfl | hmem
            · rcases List.mem_cons.mp ha with he | ha
              · exact h0 he.symm
              · have := hx.1 a ha
                omega
            · exact hd a ha hmem
          · intro hd a ha hmem
            exact hd a ha (List.mem_cons_of_mem y hmem)

theorem ilist_find_duplicate_none : ∀ l : List Int,
    List.Sorted (· ≤ ·) l → (ilist_find_duplicate l = none ↔ l.Nodup) := by
  intro l
  induction l with
  | nil => intro _; simp [ilist_find_duplicate]
  | cons x rest ih =>
    intro hs
    cases rest with
    | nil => simp [ilist_find_duplicate]
    | cons y r2 =>
      simp only [ilist_find_duplicate]
      rw [List.sorted_cons] at hs
      by_cases h0 : x = y
      · rw [if_pos h0]
        subst h0
        simp
      · rw [if_neg h0, ih hs.2]
        constructor
        · intro hnd
          rw [List.nodup_cons]
          refine ⟨?_, hnd⟩
          intro hmem
          rcases List.mem_cons.mp hmem with he | hmem
          · exact h0 he
          · have h1 := hs.1 y (List.mem_cons_self y r2)
            have h2 := (List.sorted_cons.mp hs.2).1 x hmem
            exact h0 (le_antisymm h1 h2)
        · intro hnd
          exact (List.nodup_cons.mp hnd).2

/-! ## POG node store

`node_t` entries are indexed by node id (`node_find` translates id to
`id - input_variable_count - 1`); unallocated or not-yet-created entries
have type `NODE_NONE`.  The store is a total map from id to node, with
the input-variable count `V`; `node_find` returns `none` exactly for ids
inside the input range (a negative C index), and callers additionally
reject `NODE_NONE` entries. -/

structure PogNode where
  type : NodeType
  id : Int
  cid : Int
  dependency_list : List Int
  children : List Int
deriving DecidableEq, Repr, Inhabited

structure Pog where
  V : Int
  nodes : Int → PogNode

/-- `node_find`. -/
def node_find (pog : Pog) (id : Int) : Option PogNode :=
  if id ≤ pog.V then none else some (pog.nodes id)

/-- `node_new`: allocate node `id` (growing the array as needed; grown
entries carry `NODE_NONE`); fatal if `id` is in the input range or the
slot is already in use. -/
def node_new (pog : Pog) (ty : NodeType) (id cid : Int) : Except CErr Pog :=
  if id ≤ pog.V then .error (.invalidNodeId id)
  else if (pog.nodes id).type ≠ NodeType.nonode then .error (.nodeIdInUse id)
  else .ok { pog with
             nodes := fun i => if i = id then ⟨ty, id, cid, [], []⟩ else pog.nodes i }

/-- Install the parsed children and dependency list of node `id`
(in C the fields of the `node_t` are mutated in place while parsing). -/
def node_install (pog : Pog) (ty : NodeType) (id cid : Int)
    (deps children : List Int) : Pog :=
  { pog with nodes := fun i => if i = id then ⟨ty, id, cid, deps, children⟩ else pog.nodes i }

/-! ## CPOG product command (`cpog_add_product`)

Global options and counts referenced by the command handlers, gathered
into one record: `is_pkc`, `show_variables` (indexed here directly by
variable id), `repeated_literal_ok`, `declared_root`,
`input_clause_count` (`icc`) and `variable_limit` (`vlimit`; in C this
limit grows as `node_new` extends the node array — here it is a single
value valid for the command, which agrees with the C whenever the new
node id is within it). -/
structure Cfg where
  is_pkc : Bool
  show_vars : Int → Bool
  repeated_literal_ok : Bool
  declared_root : Int
  icc : Int
  vlimit : Int

/-- One iteration of the child-parsing loop of `cpog_add_product`,
folding over the argument literals with accumulator
`(children, dependency_list, local_dependency_list)`. -/
def product_child (cfg : Cfg) (pog : Pog) (nid : Int)
    (acc : List Int × List Int × List Int) (lit : Int) :
    Except CErr (List Int × List Int × List Int) :=
  if |lit| ≤ pog.V then
    if cfg.is_pkc ∧ ¬cfg.show_vars |lit| ∧ nid ≤ cfg.declared_root then
      .error (.notDataVariable lit)
    else .ok (acc.1 ++ [lit], acc.2.1, acc.2.2 ++ [|lit|])
  else
    if |lit| ≠ lit then .error (.nnfViolation lit)
    else
      match node_find pog |lit| with
      | none => .error (.invalidNodeId lit)
      | some cnode =>
        if cnode.type = NodeType.nonode then .error (.invalidNodeId lit)
        else
          match ilist_common acc.2.1 cnode.dependency_list with
          | some dvar => .error (.dependencyViolation dvar)
          | none => .ok (acc.1 ++ [lit], ilist_union acc.2.1 cnode.dependency_list, acc.2.2)

/-- The children/dependency computation of `cpog_add_product`: parse the
argument literals, then sort the literal-children variables, reject
duplicates (strict mode) or collapse them (lenient mode), check them
against the node-children dependency union, and merge. -/
def product_locals (cfg : Cfg) (locals : List Int) : Except CErr (List Int) :=
  if cfg.repeated_literal_ok then .ok (ilist_deduplicate (ilist_sort locals))
  else
    match ilist_find_duplicate (ilist_sort locals) with
    | some dvar => .error (.dependencyViolation dvar)
    | none => .ok (ilist_sort locals)

def product_deps (cfg : Cfg) (pog : Pog) (nid : Int) (args : List Int) :
    Except CErr (List Int × List Int) :=
  match args.foldlM (product_child cfg pog nid)
      (([], [], []) : List Int × List Int × List Int) with
  | .error e => .error e
  | .ok acc =>
    if 0 < acc.2.2.length then
      match product_locals cfg acc.2.2 with
      | .error e => .error e
      | .ok ls =>
        match ilist_common acc.2.1 ls with
        | some dvar => .error (.dependencyViolation dvar)
        | none => .ok (acc.1, ilist_union acc.2.1 ls)
    else .ok (acc.1, acc.2.1)

/-- The defining-clause emission of `cpog_add_product`: the clause
`(n ∨ ¬a₁ ∨ … ∨ ¬aₖ)` (ROOT when degree 0 and `n` is the declared root,
else TSEITIN), then `(¬n ∨ aᵢ)` for each child. -/
def product_emit (cfg : Cfg) (V : Int) (db : ClauseDB) (cid nid : Int)
    (children : List Int) : Except CErr ClauseDB := do
  let db ← start_clause cfg.icc db cid
  let db ← clause_add_literal V cfg.vlimit db nid
  let db ← children.foldlM (fun d c => clause_add_literal V cfg.vlimit d (-c)) db
  let db ← clause_add_literal V cfg.vlimit db 0
  let db ← finish_clause db
      (if children.length = 0 ∧ nid = cfg.declared_root then ClauseType.root
       else ClauseType.tseitin)
  children.enum.foldlM (fun d p => do
      let d ← start_clause cfg.icc d (cid + (p.1 : Int) + 1)
      let d ← clause_add_literal V cfg.vlimit d (-nid)
      let d ← clause_add_literal V cfg.vlimit d p.2
      let d ← clause_add_literal V cfg.vlimit d 0
      finish_clause d ClauseType.tseitin) db

/-- `cpog_add_product`: allocate the node, parse its children and
dependency set, then synthesize and store the defining clauses. -/
def cpog_add_product (cfg : Cfg) (pog : Pog) (db : ClauseDB) (cid nid : Int)
    (args : List Int) : Except CErr (Pog × ClauseDB) :=
  match node_new pog .product nid cid with
  | .error e => .error e
  | .ok pog1 =>
    match product_deps cfg pog1 nid args with
    | .error e => .error e
    | .ok cd =>
      match product_emit cfg pog.V db cid nid cd.1 with
      | .error e => .error e
      | .ok db2 => .ok (node_install pog1 .product nid cid cd.2 cd.1, db2)

/-- The variables a child contributes to a PRODUCT node's dependency
set: the variable itself for a literal child, the child's dependency set
for a node child. -/
def child_vars (pog : Pog) (c : Int) : List Int :=
  if |c| ≤ pog.V then [|c|] else (pog.nodes |c|).dependency_list

/-- Side conditions on one argument literal of a `p` command that rule
out the non-dependency errors: a literal child passes the projected-mode
data-variable test, and a node child is a positive reference to an
existing node. -/
def child_ok (cfg : Cfg) (pog : Pog) (nid : Int) (c : Int) : Prop :=
  (|c| ≤ pog.V → ¬(cfg.is_pkc ∧ ¬cfg.show_vars |c| ∧ nid ≤ cfg.declared_root))
  ∧ (pog.V < |c| → 0 < c ∧ (pog.nodes c).type ≠ NodeType.nonode)

instance child_ok_dec (cfg : Cfg) (pog : Pog) (nid c : Int) :
    Decidable (child_ok cfg pog nid c) := by
  unfold child_ok
  infer_instance

theorem product_fold_ok (cfg : Cfg) (pog : Pog) (nid : Int) :
    ∀ (args ch dp lc : List Int),
    (∀ c ∈ args, child_ok cfg pog nid c) →
    (∀ id, List.Sorted (· < ·) (pog.nodes id).dependency_list) →
    List.Sorted (· < ·) dp →
    ∀ r, args.foldlM (product_child cfg pog nid) (ch, dp, lc) = .ok r →
      r.1 = ch ++ args
      ∧ List.Sorted (· < ·) r.2.1
      ∧ (∀ v, v ∈ r.2.1 ↔ v ∈ dp ∨
          ∃ c ∈ args, pog.V < |c| ∧ v ∈ (pog.nodes c).dependency_list)
      ∧ r.2.2 = lc ++ args.filterMap (fun c => if |c| ≤ pog.V then some |c| else none)
      ∧ (∀ c ∈ args, pog.V < |c| → ∀ v ∈ (pog.nodes c).dependency_list, v ∉ dp)
      ∧ (∀ c d : Int, List.Sublist [c, d] args → pog.V < |c| → pog.V < |d| →
          ∀ v ∈ (pog.nodes c).dependency_list, v ∉ (pog.nodes d).dependency_list) := by
  intro args
  induction args with
  | nil =>
    intro ch dp lc hch hwf hdp r hr
    simp only [List.foldlM_nil] at hr
    cases hr
    refine ⟨by simp, hdp, by simp, by simp, by simp, ?_⟩
    intro c d hsub
    simp at hsub
  | cons a rest ih =>
    intro ch dp lc hch hwf hdp r hr
    have hcha := hch a (List.mem_cons_self a rest)
    have hchr : ∀ c ∈ rest, child_ok cfg pog nid c :=
      fun c hc => hch c (List.mem_cons_of_mem a hc)
    rw [List.foldlM_cons] at hr
    by_cases hlit : |a| ≤ pog.V
    · -- literal child
      have hstep : product_child cfg pog nid (ch, dp, lc) a =
          .ok (ch ++ [a], dp, lc ++ [|a|]) := by
        unfold product_child
        rw [if_pos hlit, if_neg (hcha.1 hlit)]
      rw [hstep] at hr
      replace hr : rest.foldlM (product_child cfg pog nid)
          (ch ++ [a], dp, lc ++ [|a|]) = .ok r := hr
      obtain ⟨h1, h2, h3, h4, h5, h6⟩ := ih (ch ++ [a]) dp (lc ++ [|a|]) hchr hwf hdp r hr
      refine ⟨by simpa using h1, h2, ?_, ?_, ?_, ?_⟩
      · intro v
        rw [h3 v]
        constructor
        · rintro (h | ⟨c, hc, hc2⟩)
          · exact Or.inl h
          · exact Or.inr ⟨c, List.mem_cons_of_mem a hc, hc2⟩
        · rintro (h | ⟨c, hc, hc2⟩)
          · exact Or.inl h
          · rcases List.mem_cons.mp hc with rfl | hc
            · omega
            · exact Or.inr ⟨c, hc, hc2⟩
      · rw [h4]
        simp only [List.filterMap_cons, if_pos hlit]
        simp
      · intro c hc hnc
        rcases List.mem_cons.mp hc with rfl | hc
        · omega
        · exact h5 c hc hnc
      · intro c d hsub hc hd
        cases hsub with
        | cons _ h => exact h6 c d h hc hd
        | cons₂ _ h => omega
    · -- node child
      push_neg at hlit
      obtain ⟨hpos, htype⟩ := hcha.2 hlit
      have habs : |a| = a := abs_of_pos hpos
      have hfind : node_find pog |a| = some (pog.nodes a) := by
        unfold node_find
        rw [if_neg (by omega), habs]
      cases hcom : ilist_common dp (pog.nodes a).dependency_list with
      | some dvar =>
        have hstep : product_child cfg pog nid (ch, dp, lc) a =
            .error (.dependencyViolation dvar) := by
          unfold product_child
          rw [if_neg (by omega), if_neg (by rw [habs]; simp), hfind]
          simp only
          rw [if_neg htype, hcom]
        rw [hstep] at hr
        exact absurd hr (by simp [Bind.bind, Except.bind])
      | none =>
        have hstep : product_child cfg pog nid (ch, dp, lc) a =
            .ok (ch ++ [a], ilist_union dp (pog.nodes a).dependency_list, lc) := by
          unfold product_child
          rw [if_neg (by omega), if_neg (by rw [habs]; simp), hfind]
          simp only
          rw [if_neg htype, hcom]
        rw [hstep] at hr
        replace hr : rest.foldlM (product_child cfg pog nid)
            (ch ++ [a], ilist_union dp (pog.nodes a).dependency_list, lc) = .ok r := hr
        have hdp1 : List.Sorted (· < ·) (ilist_union dp (pog.nodes a).dependency_list) :=
          sorted_ilist_union dp _ hdp (hwf a)
        obtain ⟨h1, h2, h3, h4, h5, h6⟩ := ih (ch ++ [a]) _ lc hchr hwf hdp1 r hr
        have hdis : ∀ v, v ∈ dp → v ∉ (pog.nodes a).dependency_list :=
          (ilist_common_none dp _ hdp (hwf a)).mp hcom
        refine ⟨by simpa using h1, h2, ?_, ?_, ?_, ?_⟩
        · intro v
          rw [h3 v]
          constructor
          · rintro (h | ⟨c, hc, hc2⟩)
            · rcases (mem_ilist_union _ _ v).mp h with h | h
              · exact Or.inl h
              · exact Or.inr ⟨a, List.mem_cons_self a rest, hlit, h⟩
            · exact Or.inr ⟨c, List.mem_cons_of_mem a hc, hc2⟩
          · rintro (h | ⟨c, hc, hc2⟩)
            · exact Or.inl ((mem_ilist_union _ _ v).mpr (Or.inl h))
            · rcases List.mem_cons.mp hc with rfl | hc
              · exact Or.inl ((mem_ilist_union _ _ v).mpr (Or.inr hc2.2))
              · exact Or.inr ⟨c, hc, hc2⟩
        · rw [h4]
          simp only [List.filterMap_cons]
          rw [if_neg (by omega)]
        · intro c hc hnc v hv
          rcases List.mem_cons.mp hc with rfl | hc
          · intro hvdp
            exact hdis v hvdp hv
          · intro hvdp
            exact h5 c hc hnc v hv ((mem_ilist_union _ _ v).mpr (Or.inl hvdp))
        · intro c d hsub hc hd
          cases hsub with
          | cons _ h => exact h6 c d h hc hd
          | cons₂ _ h =>
            -- c = a; d occurs somewhere in rest
            have hdmem : d ∈ rest := List.singleton_sublist.mp h
            intro v hv hvd
            exact h5 d hdmem hd v hvd ((mem_ilist_union _ _ v).mpr (Or.inr hv))

theorem product_fold_classify (cfg : Cfg) (pog : Pog) (nid : Int) :
    ∀ (args : List Int) (acc : List Int × List Int × List Int),
    (∀ c ∈ args, child_ok cfg pog nid c) →
    (∃ r, args.foldlM (product_child cfg pog nid) acc = .ok r)
    ∨ (∃ d, args.foldlM (product_child cfg pog nid) acc =
        .error (.dependencyViolation d)) := by
  intro args
  induction args with
  | nil =>
    intro acc _
    exact Or.inl ⟨acc, rfl⟩
  | cons a rest ih =>
    intro acc hch
    have hcha := hch a (List.mem_cons_self a rest)
    have hchr : ∀ c ∈ rest, child_ok cfg pog nid c :=
      fun c hc => hch c (List.mem_cons_of_mem a hc)
    rw [List.foldlM_cons]
    by_cases hlit : |a| ≤ pog.V
    · have hstep : product_child cfg pog nid acc a =
          .ok (acc.1 ++ [a], acc.2.1, acc.2.2 ++ [|a|]) := by
        unfold product_child
        rw [if_pos hlit, if_neg (hcha.1 hlit)]
      rw [hstep]
      exact ih _ hchr
    · push_neg at hlit
      obtain ⟨hpos, htype⟩ := hcha.2 hlit
      have habs : |a| = a := abs_of_pos hpos
      have hfind : node_find pog |a| = some (pog.nodes a) := by
        unfold node_find
        rw [if_neg (by omega), habs]
      cases hcom : ilist_common acc.2.1 (pog.nodes a).dependency_list with
      | some dvar =>
        have hstep : product_child cfg pog nid acc a =
            .error (.dependencyViolation dvar) := by
          unfold product_child
          rw [if_neg (by omega), if_neg (by rw [habs]; simp), hfind]
          simp only
          rw [if_neg htype, hcom]
        rw [hstep]
        exact Or.inr ⟨dvar, rfl⟩
      | none =>
        have hstep : product_child cfg pog nid acc a =
            .ok (acc.1 ++ [a], ilist_union acc.2.1 (pog.nodes a).dependency_list,
                 acc.2.2) := by
          unfold product_child
          rw [if_neg (by omega), if_neg (by rw [habs]; simp), hfind]
          simp only
          rw [if_neg htype, hcom]
        rw [hstep]
        exact ih _ hchr

theorem product_deps_classify (cfg : Cfg) (pog : Pog) (nid : Int) (args : List Int)
    (hch : ∀ c ∈ args, child_ok cfg pog nid c) :
    (∃ r, product_deps cfg pog nid args = .ok r)
    ∨ (∃ d, product_deps cfg pog nid args = .error (.dependencyViolation d)) := by
  unfold product_deps
  rcases product_fold_classify cfg pog nid args ([], [], []) hch with ⟨r, hr⟩ | ⟨d, hd⟩
  · rw [hr]
    dsimp only
    by_cases hl : 0 < r.2.2.length
    · rw [if_pos hl]
      have hlocal : (∃ ls, product_locals cfg r.2.2 = .ok ls)
          ∨ ∃ d, product_locals cfg r.2.2 = .error (.dependencyViolation d) := by
        unfold product_locals
        by_cases hrl : cfg.repeated_literal_ok
        · rw [if_pos hrl]
          exact Or.inl ⟨_, rfl⟩
        · rw [if_neg hrl]
          cases hdup : ilist_find_duplicate (ilist_sort r.2.2) with
          | some dvar => exact Or.inr ⟨dvar, rfl⟩
          | none => exact Or.inl ⟨_, rfl⟩
      rcases hlocal with ⟨ls, hls⟩ | ⟨d, hd⟩
      · rw [hls]
        dsimp only
        cases hcom : ilist_common r.2.1 ls with
        | some dvar => exact Or.inr ⟨dvar, rfl⟩
        | none => exact Or.inl ⟨_, rfl⟩
      · rw [hd]
        exact Or.inr ⟨d, rfl⟩
    · rw [if_neg hl]
      exact Or.inl ⟨_, rfl⟩
  · rw [hd]
    exact Or.inr ⟨d, rfl⟩

theorem product_deps_spec (cfg : Cfg) (pog : Pog) (nid : Int) (args : List Int)
    (ch' deps' : List Int)
    (hrl : cfg.repeated_literal_ok = false)
    (hch : ∀ c ∈ args, child_ok cfg pog nid c)
    (hwf : ∀ id, List.Sorted (· < ·) (pog.nodes id).dependency_list)
    (hok : product_deps cfg pog nid args = .ok (ch', deps')) :
    ch' = args
    ∧ (∀ v, v ∈ deps' ↔ ∃ c ∈ args, v ∈ child_vars pog c)
    ∧ List.Pairwise
        (fun c d => ∀ v, v ∈ child_vars pog c → v ∉ child_vars pog d) args := by
  unfold product_deps at hok
  cases hacc : args.foldlM (product_child cfg pog nid) (([], [], []) :
      List Int × List Int × List Int) with
  | error e =>
    rw [hacc] at hok
    exact absurd hok (by simp)
  | ok acc =>
    rw [hacc] at hok
    dsimp only at hok
    obtain ⟨h1, h2, h3, h4, h5, h6⟩ :=
      product_fold_ok cfg pog nid args [] [] [] hch hwf (by simp) acc hacc
    rw [List.nil_append] at h1
    -- the variables contributed by the literal children, in order
    have hmemloc : ∀ v, v ∈ acc.2.2 ↔
        ∃ c ∈ args, |c| ≤ pog.V ∧ v = |c| := by
      intro v
      rw [h4, List.nil_append, List.mem_filterMap]
      constructor
      · rintro ⟨c, hc, hv⟩
        by_cases hcv : |c| ≤ pog.V
        · rw [if_pos hcv] at hv
          exact ⟨c, hc, hcv, (Option.some_inj.mp hv).symm⟩
        · rw [if_neg hcv] at hv
          cases hv
      · rintro ⟨c, hc, hcv, rfl⟩
        exact ⟨c, hc, by rw [if_pos hcv]⟩
    by_cases hl : 0 < acc.2.2.length
    · rw [if_pos hl] at hok
      have hloc : product_locals cfg acc.2.2 = .ok (ilist_sort acc.2.2)
          ∨ ∃ dv, product_locals cfg acc.2.2 = .error (.dependencyViolation dv) := by
        unfold product_locals
        rw [hrl]
        simp only [Bool.false_eq_true, if_false]
        cases hdup : ilist_find_duplicate (ilist_sort acc.2.2) with
        | some dvar => exact Or.inr ⟨dvar, rfl⟩
        | none => exact Or.inl rfl
      rcases hloc with hloc | ⟨dv, hloc2⟩
      swap
      · rw [hloc2] at hok
        exact absurd hok (by simp)
      rw [hloc] at hok
      dsimp only at hok
      have hdup : ilist_find_duplicate (ilist_sort acc.2.2) = none := by
        unfold product_locals at hloc
        rw [hrl] at hloc
        simp only [Bool.false_eq_true, if_false] at hloc
        cases hdup2 : ilist_find_duplicate (ilist_sort acc.2.2) with
        | some dvar => rw [hdup2] at hloc; cases hloc
        | none => rfl
      have hsle : List.Sorted (· ≤ ·) (ilist_sort acc.2.2) :=
          List.sorted_mergeSort' acc.2.2
      have hperm : (ilist_sort acc.2.2).Perm acc.2.2 :=
        List.mergeSort_perm acc.2.2 _
      have hnodup : (ilist_sort acc.2.2).Nodup :=
        (ilist_find_duplicate_none _ hsle).mp hdup
      have hslt : List.Sorted (· < ·) (ilist_sort acc.2.2) :=
        List.Sorted.lt_of_le hsle hnodup
      cases hcom : ilist_common acc.2.1 (ilist_sort acc.2.2) with
      | some dvar =>
        rw [hcom] at hok
        exact absurd hok (by simp)
      | none =>
        rw [hcom] at hok
        have hinj := Except.ok.inj hok
        have hch' : ch' = args := by
          rw [← h1]
          exact (congrArg Prod.fst hinj).symm
        have hdeps' : deps' = ilist_union acc.2.1 (ilist_sort acc.2.2) :=
          (congrArg Prod.snd hinj).symm
        have hdisj : ∀ v, v ∈ acc.2.1 → v ∉ ilist_sort acc.2.2 :=
          (ilist_common_none _ _ h2 hslt).mp hcom
        have hmemsort : ∀ v, v ∈ ilist_sort acc.2.2 ↔ v ∈ acc.2.2 :=
          fun v => hperm.mem_iff
        refine ⟨hch', ?_, ?_⟩
        · intro v
          rw [hdeps', mem_ilist_union, h3 v, hmemsort, hmemloc v]
          unfold child_vars
          constructor
          · rintro ((h | ⟨c, hc, hcn, hcv⟩) | ⟨c, hc, hcl, rfl⟩)
            · simp at h
            · refine ⟨c, hc, ?_⟩
              rw [if_neg (by omega)]
              have hx : c = |c| :=
                (abs_of_pos ((hch c hc).2 (by omega)).1).symm
              rw [← hx]
              exact hcv
            · exact ⟨c, hc, by rw [if_pos hcl]; exact List.mem_singleton_self _⟩
          · rintro ⟨c, hc, hcv⟩
            by_cases hcl : |c| ≤ pog.V
            · rw [if_pos hcl, List.mem_singleton] at hcv
              exact Or.inr ⟨c, hc, hcl, hcv⟩
            · rw [if_neg hcl] at hcv
              refine Or.inl (Or.inr ⟨c, hc, by omega, ?_⟩)
              have hx : c = |c| :=
                (abs_of_pos ((hch c hc).2 (by omega)).1).symm
              rw [hx]
              exact hcv
        · rw [List.pairwise_iff_forall_sublist]
          intro c d hsub
          have hcmem : c ∈ args := hsub.subset (List.mem_cons_self c [d])
          have hdmem : d ∈ args :=
            hsub.subset (List.mem_cons_of_mem c (List.mem_singleton_self d))
          intro v hvc hvd
          unfold child_vars at hvc hvd
          by_cases hcl : |c| ≤ pog.V
          · rw [if_pos hcl, List.mem_singleton] at hvc
            subst hvc
            by_cases hdl : |d| ≤ pog.V
            · -- two literal children with the same variable
              rw [if_pos hdl, List.mem_singleton] at hvd
              have hsubv : List.Sublist [|c|, |d|]
                  (args.filterMap (fun c =>
                    if |c| ≤ pog.V then some |c| else none)) := by
                have := List.Sublist.filterMap
                  (f := fun c => if |c| ≤ pog.V then some |c| else none) hsub
                simpa [List.filterMap_cons, if_pos hcl, if_pos hdl] using this
              have hnodup_loc : acc.2.2.Nodup := hperm.nodup_iff.mp hnodup
              have hsubv2 : List.Sublist [|c|, |d|] acc.2.2 := by
                rw [h4, List.nil_append]
                exact hsubv
              have hnd2 : ([|c|, |d|] : List Int).Nodup :=
                List.Nodup.sublist hsubv2 hnodup_loc
              rw [hvd] at hnd2
              simp at hnd2
            · -- literal child's variable inside a node child's deps
              rw [if_neg hdl] at hvd
              have hvin : |c| ∈ acc.2.1 := by
                rw [h3]
                have hdd : d = |d| :=
                  (abs_of_pos ((hch d hdmem).2 (by omega)).1).symm
                exact Or.inr ⟨d, hdmem, by omega, by rw [hdd]; exact hvd⟩
              have : |c| ∈ ilist_sort acc.2.2 := by
                rw [hmemsort, hmemloc]
                exact ⟨c, hcmem, hcl, rfl⟩
              exact hdisj _ hvin this
          · rw [if_neg hcl] at hvc
            have hc' : c = |c| :=
              (abs_of_pos ((hch c hcmem).2 (by omega)).1).symm
            by_cases hdl : |d| ≤ pog.V
            · -- node child's dep used again as later literal child
              rw [if_pos hdl, List.mem_singleton] at hvd
              have hvin : v ∈ acc.2.1 := by
                rw [h3]
                exact Or.inr ⟨c, hcmem, by omega, by rw [hc']; exact hvc⟩
              have hvloc : v ∈ ilist_sort acc.2.2 := by
                rw [hmemsort, hmemloc]
                exact ⟨d, hdmem, hdl, hvd⟩
              exact hdisj _ hvin hvloc
            · -- two node children sharing a dependency variable
              rw [if_neg hdl] at hvd
              have hd' : d = |d| :=
                (abs_of_pos ((hch d hdmem).2 (by omega)).1).symm
              have hvc2 : v ∈ (pog.nodes c).dependency_list := by
                rw [hc']
                exact hvc
              have hvd2 : v ∈ (pog.nodes d).dependency_list := by
                rw [hd']
                exact hvd
              exact h6 c d hsub (by omega) (by omega) v hvc2 hvd2
    · rw [if_neg hl] at hok
      have hinj := Except.ok.inj hok
      have hch' : ch' = args := by
        rw [← h1]
        exact (congrArg Prod.fst hinj).symm
      have hdeps' : deps' = acc.2.1 := (congrArg Prod.snd hinj).symm
      have hnolit : ∀ c ∈ args, ¬(|c| ≤ pog.V) := by
        intro c hc hcl
        have : |c| ∈ acc.2.2 := (hmemloc |c|).mpr ⟨c, hc, hcl, rfl⟩
        exact hl (List.length_pos_of_mem this)
      refine ⟨hch', ?_, ?_⟩
      · intro v
        rw [hdeps', h3 v]
        unfold child_vars
        constructor
        · rintro (h | ⟨c, hc, hcn, hcv⟩)
          · simp at h
          · refine ⟨c, hc, ?_⟩
            rw [if_neg (by omega)]
            have hx : c = |c| :=
              (abs_of_pos ((hch c hc).2 (by omega)).1).symm
            rw [← hx]
            exact hcv
        · rintro ⟨c, hc, hcv⟩
          rw [if_neg (hnolit c hc)] at hcv
          refine Or.inr ⟨c, hc, by have := hnolit c hc; omega, ?_⟩
          have hx : c = |c| :=
            (abs_of_pos ((hch c hc).2 (by have := hnolit c hc; omega)).1).symm
          rw [hx]
          exact hcv
      · rw [List.pairwise_iff_forall_sublist]
        intro c d hsub
        have hcmem : c ∈ args := hsub.subset (List.mem_cons_self c [d])
        have hdmem : d ∈ args :=
          hsub.subset (List.mem_cons_of_mem c (List.mem_singleton_self d))
        intro v hvc hvd
        unfold child_vars at hvc hvd
        rw [if_neg (hnolit c hcmem)] at hvc
        rw [if_neg (hnolit d hdmem)] at hvd
        have hc' : c = |c| :=
          (abs_of_pos ((hch c hcmem).2 (by have := hnolit c hcmem; omega)).1).symm
        have hd' : d = |d| :=
          (abs_of_pos ((hch d hdmem).2 (by have := hnolit d hdmem; omega)).1).symm
        exact h6 c d hsub
          (by have := hnolit c hcmem; omega) (by have := hnolit d hdmem; omega) v
          (by rw [hc']; exact hvc) (by rw [hd']; exact hvd)

/-- A successful `node_new` is exactly the installation of a blank node
into the fresh slot. -/
theorem node_new_ok (pog : Pog) (ty : NodeType) (id cid : Int)
    (hid : pog.V < id) (hfree : (pog.nodes id).type = NodeType.nonode) :
    node_new pog ty id cid = .ok (node_install pog ty id cid [] []) := by
  unfold node_new node_install
  rw [if_neg (by omega), if_neg (by simp [hfree])]

/-- Installing a node in slot `nid` does not change the variable set
contributed by any child whose variable differs from `nid`. -/
theorem child_vars_install_ne (pog : Pog) (ty : NodeType) (nid cid : Int)
    (deps children : List Int) (c : Int) (h : |c| ≠ nid) :
    child_vars (node_install pog ty nid cid deps children) c = child_vars pog c := by
  unfold child_vars node_install
  dsimp only
  rw [if_neg h]

/-- **C4.** For every PRODUCT node accepted by the `p` command in strict
mode (`repeated_literal_ok` false), the installed node's dependency list
holds exactly the variables of its literal children together with the
members of its node children's dependency sets, and these per-child
variable sets are pairwise disjoint (so the dependency set is their
disjoint union); conversely, whenever some variable occurs in two
children — two literal children with the same variable, or a variable
shared between two children's contributed sets — the command fails with a
fatal `DependencyViolation` instead of creating the node. -/
theorem cpog_add_product_spec (cfg : Cfg) (pog : Pog) (db : ClauseDB)
    (cid nid : Int) (args : List Int)
    (hrl : cfg.repeated_literal_ok = false)
    (hnn : pog.V < nid)
    (hfresh : (pog.nodes nid).type = NodeType.nonode)
    (hch : ∀ c ∈ args, child_ok cfg pog nid c ∧ |c| ≠ nid)
    (hwf : ∀ id, List.Sorted (· < ·) (pog.nodes id).dependency_list) :
    (∀ pog2 db2, cpog_add_product cfg pog db cid nid args = .ok (pog2, db2) →
      (pog2.nodes nid).type = NodeType.product
      ∧ (pog2.nodes nid).children = args
      ∧ (∀ v, v ∈ (pog2.nodes nid).dependency_list ↔
          ∃ c ∈ args, v ∈ child_vars pog c)
      ∧ List.Pairwise
          (fun c d => ∀ v, v ∈ child_vars pog c → v ∉ child_vars pog d) args)
    ∧ (¬ List.Pairwise
          (fun c d => ∀ v, v ∈ child_vars pog c → v ∉ child_vars pog d) args →
        ∃ d, cpog_add_product cfg pog db cid nid args =
          .error (.dependencyViolation d)) := by
  have hnew := node_new_ok pog .product nid cid hnn hfresh
  have hch1 : ∀ c ∈ args,
      child_ok cfg (node_install pog .product nid cid [] []) nid c := by
    intro c hc
    obtain ⟨⟨h1, h2⟩, hne⟩ := hch c hc
    refine ⟨fun hcl => h1 hcl, fun hcg => ?_⟩
    obtain ⟨hpos, hty⟩ := h2 hcg
    refine ⟨hpos, ?_⟩
    show ((node_install pog .product nid cid [] []).nodes c).type ≠ NodeType.nonode
    unfold node_install
    dsimp only
    rw [if_neg (by have := abs_of_pos hpos; omega)]
    exact hty
  have hwf1 : ∀ id, List.Sorted (· < ·)
      ((node_install pog .product nid cid [] []).nodes id).dependency_list := by
    intro id
    unfold node_install
    dsimp only
    by_cases h : id = nid
    · rw [if_pos h]
      exact List.sorted_nil
    · rw [if_neg h]
      exact hwf id
  have hcv : ∀ c ∈ args,
      child_vars (node_install pog .product nid cid [] []) c = child_vars pog c :=
    fun c hc => child_vars_install_ne pog .product nid cid [] [] c (hch c hc).2
  constructor
  · intro pog2 db2 hok
    unfold cpog_add_product at hok
    rw [hnew] at hok
    dsimp only at hok
    cases hdeps : product_deps cfg (node_install pog .product nid cid [] [])
        nid args with
    | error e =>
      rw [hdeps] at hok
      exact absurd hok (by simp)
    | ok cd =>
      rw [hdeps] at hok
      dsimp only at hok
      cases hemit : product_emit cfg pog.V db cid nid cd.1 with
      | error e =>
        rw [hemit] at hok
        exact absurd hok (by simp)
      | ok dbx =>
        rw [hemit] at hok
        dsimp only at hok
        have hinj := Except.ok.inj hok
        have hpog2 : pog2 = node_install (node_install pog .product nid cid [] [])
            .product nid cid cd.2 cd.1 := (congrArg Prod.fst hinj).symm
        obtain ⟨hch2, hmem, hpw⟩ := product_deps_spec cfg
          (node_install pog .product nid cid [] []) nid args cd.1 cd.2
          hrl hch1 hwf1 (by rw [hdeps])
        have hnode : pog2.nodes nid = ⟨NodeType.product, nid, cid, cd.2, cd.1⟩ := by
          rw [hpog2]
          unfold node_install
          dsimp only
          rw [if_pos rfl]
        refine ⟨by rw [hnode], by rw [hnode]; exact hch2, ?_, ?_⟩
        · intro v
          rw [hnode]
          show v ∈ cd.2 ↔ _
          rw [hmem v]
          constructor
          · rintro ⟨c, hc, hv⟩
            refine ⟨c, hc, ?_⟩
            rw [← hcv c hc]
            exact hv
          · rintro ⟨c, hc, hv⟩
            refine ⟨c, hc, ?_⟩
            rw [hcv c hc]
            exact hv
        · rw [List.pairwise_iff_forall_sublist] at hpw ⊢
          intro c d hsub
          have hcmem : c ∈ args := hsub.subset (List.mem_cons_self c [d])
          have hdmem : d ∈ args :=
            hsub.subset (List.mem_cons_of_mem c (List.mem_singleton_self d))
          intro v hvc
          rw [← hcv c hcmem] at hvc
          rw [← hcv d hdmem]
          exact hpw hsub v hvc
  · intro hnp
    rcases product_deps_classify cfg (node_install pog .product nid cid [] [])
        nid args hch1 with ⟨r, hr⟩ | ⟨d, hd⟩
    · exfalso
      obtain ⟨ch2, deps2⟩ := r
      obtain ⟨-, -, hpw⟩ := product_deps_spec cfg
        (node_install pog .product nid cid [] []) nid args ch2 deps2
        hrl hch1 hwf1 hr
      apply hnp
      rw [List.pairwise_iff_forall_sublist] at hpw ⊢
      intro c d hsub
      have hcmem : c ∈ args := hsub.subset (List.mem_cons_self c [d])
      have hdmem : d ∈ args :=
        hsub.subset (List.mem_cons_of_mem c (List.mem_singleton_self d))
      intro v hvc
      rw [← hcv c hcmem] at hvc
      rw [← hcv d hdmem]
      exact hpw hsub v hvc
    · refine ⟨d, ?_⟩
      unfold cpog_add_product
      rw [hnew]
      dsimp only
      rw [hd]

/-- A concrete configuration for exercising `cpog_add_product`. -/
def cfgW : Cfg := ⟨false, fun _ => true, false, 4, 2, 100⟩

/-- A concrete POG over 2 input variables with one existing product node 3
depending on variable 2. -/
def pogW : Pog :=
  ⟨2, fun i => if i = 3 then ⟨NodeType.product, 3, 5, [2], [2]⟩
     else ⟨NodeType.nonode, 0, 0, [], []⟩⟩

theorem cpog_add_product_spec_witness :
    (∀ pog2 db2,
      cpog_add_product cfgW pogW clause_init 10 4 [3, 1] = .ok (pog2, db2) →
      (pog2.nodes 4).type = NodeType.product
      ∧ (pog2.nodes 4).children = [3, 1]
      ∧ (∀ v, v ∈ (pog2.nodes 4).dependency_list ↔
          ∃ c ∈ [3, 1], v ∈ child_vars pogW c)
      ∧ List.Pairwise
          (fun c d => ∀ v, v ∈ child_vars pogW c → v ∉ child_vars pogW d) [3, 1])
    ∧ (¬ List.Pairwise
          (fun c d => ∀ v, v ∈ child_vars pogW c → v ∉ child_vars pogW d) [3, 1] →
        ∃ d, cpog_add_product cfgW pogW clause_init 10 4 [3, 1] =
          .error (.dependencyViolation d)) :=
  cpog_add_product_spec cfgW pogW clause_init 10 4 [3, 1] rfl (by decide) (by decide)
    (by decide)
    (by
      intro id
      show List.Sorted (· < ·)
        ((if id = 3 then (⟨NodeType.product, 3, 5, [2], [2]⟩ : PogNode)
          else ⟨NodeType.nonode, 0, 0, [], []⟩).dependency_list)
      by_cases h : id = 3
      · rw [if_pos h]
        exact List.sorted_singleton 2
      · rw [if_neg h]
        exact List.sorted_nil)

/-! ## CPOG sum command (`cpog_add_sum`, strict form `s`)

The strict command reads exactly two children (the loop breaks at
`ilist_length(node->children) == 2`).  Unlike the product command, a node
child's dependency set is unioned in without a disjointness check, and the
projected-mode data-variable test does not consult `declared_root`. -/

/-- One iteration of the child loop of `cpog_add_sum`, with accumulator
`(children, dependency_list, local_dependency_list)`. -/
def sum_child (cfg : Cfg) (pog : Pog)
    (acc : List Int × List Int × List Int) (lit : Int) :
    Except CErr (List Int × List Int × List Int) :=
  if |lit| ≤ pog.V then
    if cfg.is_pkc ∧ ¬cfg.show_vars |lit| then .error (.notDataVariable lit)
    else .ok (acc.1 ++ [lit], acc.2.1, acc.2.2 ++ [|lit|])
  else
    if |lit| ≠ lit then .error (.nnfViolation lit)
    else
      match node_find pog |lit| with
      | none => .error (.invalidNodeId lit)
      | some cnode =>
        if cnode.type = NodeType.nonode then .error (.invalidNodeId lit)
        else .ok (acc.1 ++ [lit], ilist_union acc.2.1 cnode.dependency_list, acc.2.2)

/-- The children/dependency computation of strict `cpog_add_sum`: the two
child literals, then (if any literal children) sort their variables and
union them in — no duplicate rejection for sums. -/
def sum_deps (cfg : Cfg) (pog : Pog) (c1 c2 : Int) :
    Except CErr (List Int × List Int) :=
  match [c1, c2].foldlM (sum_child cfg pog)
      (([], [], []) : List Int × List Int × List Int) with
  | .error e => .error e
  | .ok acc =>
    if 0 < acc.2.2.length then .ok (acc.1, ilist_union acc.2.1 (ilist_sort acc.2.2))
    else .ok (acc.1, acc.2.1)

/-- The mutual-exclusion RUP check of strict `cpog_add_sum`: clear the
literal set, add both children (`lset_add_lit` return values are ignored
in the C code), and run `rup_run` with target type `CLAUSE_STRUCTURAL`
over the clause store as it stands before any defining clause is added. -/
def sum_mutex (db : ClauseDB) (s : Lset) (cid c1 c2 : Int) (hints : List Int) :
    Except CErr Lset :=
  rup_run true false (clause_lookup db) ClauseType.structural cid
    (lset_add_lit (lset_add_lit (lset_clear s) c1).2 c2).2 hints

/-- The defining-clause emission of strict `cpog_add_sum`: the clause
`(¬n ∨ c1 ∨ c2)` and then `(n ∨ ¬c1)`, `(n ∨ ¬c2)`, all TSEITIN. -/
def sum_emit (cfg : Cfg) (V : Int) (db : ClauseDB) (cid nid c1 c2 : Int) :
    Except CErr ClauseDB := do
  let db ← start_clause cfg.icc db cid
  let db ← clause_add_literal V cfg.vlimit db (-nid)
  let db ← clause_add_literal V cfg.vlimit db c1
  let db ← clause_add_literal V cfg.vlimit db c2
  let db ← clause_add_literal V cfg.vlimit db 0
  let db ← finish_clause db ClauseType.tseitin
  let db ← start_clause cfg.icc db (cid + 1)
  let db ← clause_add_literal V cfg.vlimit db nid
  let db ← clause_add_literal V cfg.vlimit db (-c1)
  let db ← clause_add_literal V cfg.vlimit db 0
  let db ← finish_clause db ClauseType.tseitin
  let db ← start_clause cfg.icc db (cid + 2)
  let db ← clause_add_literal V cfg.vlimit db nid
  let db ← clause_add_literal V cfg.vlimit db (-c2)
  let db ← clause_add_literal V cfg.vlimit db 0
  finish_clause db ClauseType.tseitin

/-- `cpog_add_sum`, strict form: allocate the node, parse the two
children and the dependency set, prove mutual exclusion by RUP, and only
then synthesize and store the three defining clauses. -/
def cpog_add_sum (cfg : Cfg) (pog : Pog) (s : Lset) (db : ClauseDB)
    (cid nid c1 c2 : Int) (hints : List Int) :
    Except CErr (Pog × ClauseDB) :=
  match node_new pog .sum nid cid with
  | .error e => .error e
  | .ok pog1 =>
    match sum_deps cfg pog1 c1 c2 with
    | .error e => .error e
    | .ok cd =>
      match sum_mutex db s cid c1 c2 hints with
      | .error e => .error e
      | .ok _ =>
        match sum_emit cfg pog.V db cid nid c1 c2 with
        | .error e => .error e
        | .ok db2 => .ok (node_install pog1 .sum nid cid cd.2 cd.1, db2)

/-- **C3.** For every SUM node created by the strict `s` command, the
mutual-exclusion RUP check over the pair of children runs first, against
the clause store as it stands before the command adds anything: the
command succeeds only if that check succeeds, and then the output store
is exactly the pre-command store extended by the three defining clauses;
if the mutex check fails, the command aborts with that error and in
particular never returns a store holding any defining clause. -/
theorem cpog_add_sum_spec (cfg : Cfg) (pog : Pog) (s : Lset) (db : ClauseDB)
    (cid nid c1 c2 : Int) (hints : List Int) :
    (∀ pog2 db2,
      cpog_add_sum cfg pog s db cid nid c1 c2 hints = .ok (pog2, db2) →
      isOkay (sum_mutex db s cid c1 c2 hints) = true
      ∧ sum_emit cfg pog.V db cid nid c1 c2 = .ok db2)
    ∧ (∀ e, sum_mutex db s cid c1 c2 hints = .error e →
        ∀ pog2 db2,
          cpog_add_sum cfg pog s db cid nid c1 c2 hints ≠ .ok (pog2, db2)) := by
  constructor
  · intro pog2 db2 hok
    unfold cpog_add_sum at hok
    cases hnn : node_new pog .sum nid cid with
    | error e =>
      rw [hnn] at hok
      exact absurd hok (by simp)
    | ok pog1 =>
      rw [hnn] at hok
      dsimp only at hok
      cases hsd : sum_deps cfg pog1 c1 c2 with
      | error e =>
        rw [hsd] at hok
        exact absurd hok (by simp)
      | ok cd =>
        rw [hsd] at hok
        dsimp only at hok
        cases hmx : sum_mutex db s cid c1 c2 hints with
        | error e =>
          rw [hmx] at hok
          exact absurd hok (by simp)
        | ok s2 =>
          rw [hmx] at hok
          dsimp only at hok
          cases hem : sum_emit cfg pog.V db cid nid c1 c2 with
          | error e =>
            rw [hem] at hok
            exact absurd hok (by simp)
          | ok dbx =>
            rw [hem] at hok
            dsimp only at hok
            have hinj := Except.ok.inj hok
            refine ⟨rfl, ?_⟩
            exact congrArg (fun p => Except.ok p.2) hinj
  · intro e he pog2 db2 hok
    unfold cpog_add_sum at hok
    cases hnn : node_new pog .sum nid cid with
    | error e2 =>
      rw [hnn] at hok
      exact absurd hok (by simp)
    | ok pog1 =>
      rw [hnn] at hok
      dsimp only at hok
      cases hsd : sum_deps cfg pog1 c1 c2 with
      | error e2 =>
        rw [hsd] at hok
        exact absurd hok (by simp)
      | ok cd =>
        rw [hsd] at hok
        dsimp only at hok
        rw [he] at hok
        exact absurd hok (by simp)

/-- A concrete configuration and POG for exercising `cpog_add_sum`. -/
def cfgS : Cfg := ⟨false, fun _ => true, false, 3, 2, 100⟩

def pogS : Pog := ⟨2, fun _ => ⟨NodeType.nonode, 0, 0, [], []⟩⟩

theorem cpog_add_sum_spec_witness :
    (∀ pog2 db2,
      cpog_add_sum cfgS pogS (lset_init 2) clause_init 10 3 1 (-1) [] =
        .ok (pog2, db2) →
      isOkay (sum_mutex clause_init (lset_init 2) 10 1 (-1) []) = true
      ∧ sum_emit cfgS pogS.V clause_init 10 3 1 (-1) = .ok db2)
    ∧ (∀ e, sum_mutex clause_init (lset_init 2) 10 1 (-1) [] = .error e →
        ∀ pog2 db2,
          cpog_add_sum cfgS pogS (lset_init 2) clause_init 10 3 1 (-1) [] ≠
            .ok (pog2, db2)) :=
  cpog_add_sum_spec cfgS pogS (lset_init 2) clause_init 10 3 1 (-1) []

/-! ## Implicit-deletion propagator (`rup_run_input`)

The reverse-implication check walks the POG bottom-up with a min-heap
priority queue of pending node ids and per-node saturating event
counters (`unsigned char`, saturated at 2 by `plusplus_max2`).  The heap
is modelled as a `List Int` (`priority_count` is its length); the counter
array, indexed in C by `var - input_variable_count - 1`, is modelled as a
total map from the node id itself.  `pos_fanouts`/`neg_fanouts` (built by
`build_deletion_structures`) are passed in as maps from variable to the
ids of the nodes containing the corresponding literal child. -/

/-- The two-assignment swap in `sift_down`/`sift_up`. -/
def list_swap (l : List Int) (i j : Nat) : List Int :=
  (l.set i (l.getD j 0)).set j (l.getD i 0)

/-- `min` after comparing with the left child in `sift_down`. -/
def sd_min1 (l : List Int) (idx : Nat) : Nat :=
  if l.getD (2 * idx + 1) 0 < l.getD idx 0 then 2 * idx + 1 else idx

/-- The index `min` settled on by one `sift_down` iteration. -/
def sd_next (l : List Int) (idx : Nat) : Nat :=
  if 2 * idx + 2 < l.length ∧ l.getD (2 * idx + 2) 0 < l.getD (sd_min1 l idx) 0 then
    2 * idx + 2
  else sd_min1 l idx

theorem sd_min1_cases (l : List Int) (idx : Nat) :
    sd_min1 l idx = 2 * idx + 1 ∨ sd_min1 l idx = idx := by
  unfold sd_min1
  by_cases h : l.getD (2 * idx + 1) 0 < l.getD idx 0
  · rw [if_pos h]
    exact Or.inl rfl
  · rw [if_neg h]
    exact Or.inr rfl

theorem sd_next_bounds (l : List Int) (idx : Nat) (h : 2 * idx + 1 < l.length)
    (hne : sd_next l idx ≠ idx) : idx < sd_next l idx ∧ sd_next l idx < l.length := by
  unfold sd_next at hne ⊢
  by_cases h2 : 2 * idx + 2 < l.length ∧ l.getD (2 * idx + 2) 0 < l.getD (sd_min1 l idx) 0
  · rw [if_pos h2] at hne ⊢
    omega
  · rw [if_neg h2] at hne ⊢
    rcases sd_min1_cases l idx with hs | hs <;> rw [hs] at hne ⊢ <;> omega

/-- `sift_down`: restore the min-heap below `idx` (the C `while` loop). -/
def sift_down_go (l : List Int) (idx : Nat) : List Int :=
  if h : 2 * idx + 1 < l.length then
    if hm : sd_next l idx = idx then l
    else sift_down_go (list_swap l (sd_next l idx) idx) (sd_next l idx)
  else l
termination_by l.length - idx
decreasing_by
  have hb := sd_next_bounds l idx h hm
  simp only [list_swap, List.length_set]
  omega

/-- `sift_up`: restore the min-heap above `idx`. -/
def sift_up_go (l : List Int) (idx : Nat) : List Int :=
  if h : 0 < idx then
    if l.getD idx 0 < l.getD ((idx - 1) / 2) 0 then
      sift_up_go (list_swap l idx ((idx - 1) / 2)) ((idx - 1) / 2)
    else l
  else l
termination_by idx
decreasing_by omega

/-- `propagate_t`: the saturating per-node event counters plus the
priority queue (`priority_queue` with `priority_count` = length). -/
structure Propagator where
  node_event_count : Int → Nat
  priority_queue : List Int

/-- `priority_add`: `plusplus_max2` on the node's event counter; the node
enters the queue (with `sift_up`) exactly when the old count was 0. -/
def priority_add (prop : Propagator) (var : Int) : Propagator :=
  if prop.node_event_count var = 0 then
    { node_event_count := fun v => if v = var then 1 else prop.node_event_count v,
      priority_queue := sift_up_go (prop.priority_queue ++ [var])
        prop.priority_queue.length }
  else
    { prop with node_event_count := fun v =>
        if v = var then
          if prop.node_event_count var < 2 then prop.node_event_count var + 1
          else prop.node_event_count var
        else prop.node_event_count v }

/-- `priority_next`: pop the minimum (-1 on an empty queue): move the
last element to the front, shrink, and `sift_down` from the root. -/
def priority_next (prop : Propagator) : Int × Propagator :=
  if prop.priority_queue.length = 0 then (-1, prop)
  else
    (prop.priority_queue.getD 0 0,
     ⟨prop.node_event_count,
      sift_down_go
        ((prop.priority_queue.set 0
          (prop.priority_queue.getD (prop.priority_queue.length - 1) 0)).dropLast)
        0⟩)

/-- `process_fanout`: enqueue every node containing the negation of
`lit` as a child (fanouts of `-lit`). -/
def process_fanout (pf nf : Int → List Int) (prop : Propagator) (lit : Int) :
    Propagator :=
  (if lit < 0 then pf |lit| else nf |lit|).foldl priority_add prop

/-- Zeroing of `node_event_count[idx-1]` on pop. -/
def count_reset (prop : Propagator) (var : Int) : Propagator :=
  { prop with node_event_count := fun v =>
      if v = var then 0 else prop.node_event_count v }

/-- The `propagate_threshold` computation of `rup_run_input`:
initialised to 1, overwritten with the degree for SUM nodes. -/
def node_threshold (pog : Pog) (var : Int) : Nat :=
  if (pog.nodes var).type = NodeType.sum then (pog.nodes var).children.length
  else 1

/-- The pop loop of `rup_run_input`
(`while (!conflict && (var = priority_next(prop)) > 0)`), with explicit
fuel (the C loop terminates because total enqueues are bounded; `none`
means the fuel ran out before the loop finished). -/
def rup_input_go (pf nf : Int → List Int) (pog : Pog) (root : Int) :
    Nat → Propagator → Option (Bool × Propagator)
  | 0, _ => none
  | fuel + 1, prop =>
    match priority_next prop with
    | (var, prop1) =>
      if var ≤ 0 then some (false, prop1)
      else if node_threshold pog var ≤ prop1.node_event_count var then
        if var = root then
          some (true,
            process_fanout pf nf (count_reset prop1 var) (-(pog.nodes var).id))
        else
          rup_input_go pf nf pog root fuel
            (process_fanout pf nf (count_reset prop1 var) (-(pog.nodes var).id))
      else rup_input_go pf nf pog root fuel (count_reset prop1 var)

/-- The same loop instrumented with a trace of every pop: the popped
node id, its event count at the pop, and whether it fired
(`ecount >= propagate_threshold`). -/
def rup_input_trace (pf nf : Int → List Int) (pog : Pog) (root : Int) :
    Nat → Propagator → Option (Bool × Propagator × List (Int × Nat × Bool))
  | 0, _ => none
  | fuel + 1, prop =>
    match priority_next prop with
    | (var, prop1) =>
      if var ≤ 0 then some (false, prop1, [])
      else if node_threshold pog var ≤ prop1.node_event_count var then
        if var = root then
          some (true,
            process_fanout pf nf (count_reset prop1 var) (-(pog.nodes var).id),
            [(var, prop1.node_event_count var, true)])
        else
          match rup_input_trace pf nf pog root fuel
              (process_fanout pf nf (count_reset prop1 var) (-(pog.nodes var).id)) with
          | none => none
          | some (c, p, tr) => some (c, p, (var, prop1.node_event_count var, true) :: tr)
      else
        match rup_input_trace pf nf pog root fuel (count_reset prop1 var) with
        | none => none
        | some (c, p, tr) => some (c, p, (var, prop1.node_event_count var, false) :: tr)

/-- `reset_propagator`: keep the counters, clear the queue. -/
def reset_propagator (prop : Propagator) : Propagator :=
  { prop with priority_queue := [] }

/-- `rup_run_input`: seed the queue with the fanouts of the negated
clause literals (`lits` is the stored literal run, read up to the
terminating 0), run the pop loop, reset the propagator, and fail with
the implicit-deletion diagnostic if no conflict was reached. -/
def rup_run_input (pf nf : Int → List Int) (pog : Pog) (root : Int) (fuel : Nat)
    (prop : Propagator) (tcid : Int) (lits : List Int) :
    Option (Except CErr Propagator) :=
  match rup_input_go pf nf pog root fuel
      (lits.foldl (fun p lit => process_fanout pf nf p (-lit)) prop) with
  | none => none
  | some (conflict, prop2) =>
    if conflict then some (.ok (reset_propagator prop2))
    else some (.error (.implicitDeletionFailed tcid))

/-- The instrumented loop agrees with the plain loop, the final conflict
flag holds exactly when the declared root appears fired in the trace,
and a pop fired exactly when its event count reached the node's
threshold. -/
theorem rup_input_go_trace (pf nf : Int → List Int) (pog : Pog) (root : Int) :
    ∀ (fuel : Nat) (prop : Propagator) (conflict : Bool) (prop2 : Propagator),
    rup_input_go pf nf pog root fuel prop = some (conflict, prop2) →
    ∃ trace : List (Int × Nat × Bool),
      rup_input_trace pf nf pog root fuel prop = some (conflict, prop2, trace)
      ∧ (conflict = true ↔ ∃ e ∈ trace, e.1 = root ∧ e.2.2 = true)
      ∧ (∀ e ∈ trace, e.2.2 = true ↔ node_threshold pog e.1 ≤ e.2.1) := by
  intro fuel
  induction fuel with
  | zero =>
    intro prop conflict prop2 h
    exact absurd h (by simp [rup_input_go])
  | succ fuel ih =>
    intro prop conflict prop2 h
    unfold rup_input_go at h
    rcases hpn : priority_next prop with ⟨var, prop1⟩
    rw [hpn] at h
    dsimp only at h
    by_cases hv : var ≤ 0
    · rw [if_pos hv] at h
      injection Option.some.inj h with hc hp
      subst hc
      subst hp
      refine ⟨[], ?_, by simp, by simp⟩
      unfold rup_input_trace
      rw [hpn]
      dsimp only
      rw [if_pos hv]
    · rw [if_neg hv] at h
      by_cases hth : node_threshold pog var ≤ prop1.node_event_count var
      · rw [if_pos hth] at h
        by_cases hvr : var = root
        · rw [if_pos hvr] at h
          injection Option.some.inj h with hc hp
          subst hc
          subst hp
          refine ⟨[(var, prop1.node_event_count var, true)], ?_, ?_, ?_⟩
          · unfold rup_input_trace
            rw [hpn]
            dsimp only
            rw [if_neg hv, if_pos hth, if_pos hvr]
          · constructor
            · intro _
              exact ⟨(var, prop1.node_event_count var, true),
                List.mem_singleton_self _, hvr, rfl⟩
            · intro _
              rfl
          · intro e he
            rw [List.mem_singleton] at he
            subst he
            simpa using hth
        · rw [if_neg hvr] at h
          obtain ⟨tr, htr, hiff, hall⟩ := ih _ _ _ h
          refine ⟨(var, prop1.node_event_count var, true) :: tr, ?_, ?_, ?_⟩
          · unfold rup_input_trace
            rw [hpn]
            dsimp only
            rw [if_neg hv, if_pos hth, if_neg hvr, htr]
          · constructor
            · intro hc
              rcases hiff.mp hc with ⟨e, he, h1, h2⟩
              exact ⟨e, List.mem_cons_of_mem _ he, h1, h2⟩
            · rintro ⟨e, he, h1, h2⟩
              rcases List.mem_cons.mp he with rfl | he2
              · exact absurd h1 hvr
              · exact hiff.mpr ⟨e, he2, h1, h2⟩
          · intro e he
            rcases List.mem_cons.mp he with rfl | he2
            · simpa using hth
            · exact hall e he2
      · rw [if_neg hth] at h
        obtain ⟨tr, htr, hiff, hall⟩ := ih _ _ _ h
        refine ⟨(var, prop1.node_event_count var, false) :: tr, ?_, ?_, ?_⟩
        · unfold rup_input_trace
          rw [hpn]
          dsimp only
          rw [if_neg hv, if_neg hth, htr]
        · constructor
          · intro hc
            rcases hiff.mp hc with ⟨e, he, h1, h2⟩
            exact ⟨e, List.mem_cons_of_mem _ he, h1, h2⟩
          · rintro ⟨e, he, h1, h2⟩
            rcases List.mem_cons.mp he with rfl | he2
            · exact absurd h2 (by simp)
            · exact hiff.mpr ⟨e, he2, h1, h2⟩
        · intro e he
          rcases List.mem_cons.mp he with rfl | he2
          · simpa using hth
          · exact hall e he2

/-- **C2.** During the reverse-implication check of a non-deleted input
clause, every node popped from the queue fires exactly when its
saturating event count has reached the firing threshold — 1 for PRODUCT
and SKOLEM nodes, the degree for SUM nodes — and the check succeeds
exactly when the declared root fires, `rup_run_input` then returning the
reset propagator; if the loop drains without the root firing the check
fails fatally with `ImplicitDeletionFailed` carrying the clause id. -/
theorem rup_run_input_spec (pf nf : Int → List Int) (pog : Pog) (root : Int)
    (fuel : Nat) (prop : Propagator) (tcid : Int) (lits : List Int)
    (conflict : Bool) (prop2 : Propagator)
    (hrun : rup_input_go pf nf pog root fuel
        (lits.foldl (fun p lit => process_fanout pf nf p (-lit)) prop) =
      some (conflict, prop2)) :
    ∃ trace : List (Int × Nat × Bool),
      rup_input_trace pf nf pog root fuel
          (lits.foldl (fun p lit => process_fanout pf nf p (-lit)) prop) =
        some (conflict, prop2, trace)
      ∧ (conflict = true ↔ ∃ e ∈ trace, e.1 = root ∧ e.2.2 = true)
      ∧ (∀ e ∈ trace,
          (((pog.nodes e.1).type = NodeType.product
            ∨ (pog.nodes e.1).type = NodeType.skolem) →
            (e.2.2 = true ↔ 1 ≤ e.2.1))
          ∧ ((pog.nodes e.1).type = NodeType.sum →
            (e.2.2 = true ↔ (pog.nodes e.1).children.length ≤ e.2.1)))
      ∧ (conflict = true →
          rup_run_input pf nf pog root fuel prop tcid lits =
            some (.ok (reset_propagator prop2)))
      ∧ (conflict = false →
          rup_run_input pf nf pog root fuel prop tcid lits =
            some (.error (.implicitDeletionFailed tcid))) := by
  obtain ⟨tr, htr, hiff, hall⟩ :=
    rup_input_go_trace pf nf pog root fuel _ conflict prop2 hrun
  refine ⟨tr, htr, hiff, ?_, ?_, ?_⟩
  · intro e he
    have h := hall e he
    constructor
    · intro hty
      rw [h]
      unfold node_threshold
      rcases hty with hty | hty <;> rw [hty] <;> simp
    · intro hty
      rw [h]
      unfold node_threshold
      rw [hty]
      simp
  · intro hc
    unfold rup_run_input
    rw [hrun]
    dsimp only
    rw [hc]
    simp
  · intro hc
    unfold rup_run_input
    rw [hrun]
    dsimp only
    rw [hc]
    simp

/-- Concrete fanout maps and POG (V = 1, node 2 = product over literal 1,
declared root 2) for exercising `rup_run_input`. -/
def pfT : Int → List Int := fun v => if v = 1 then [2] else []

def nfT : Int → List Int := fun _ => []

def pogT : Pog :=
  ⟨1, fun i => if i = 2 then ⟨NodeType.product, 2, 3, [1], [1]⟩
     else ⟨NodeType.nonode, 0, 0, [], []⟩⟩

def propT0 : Propagator := ⟨fun _ => 0, []⟩

def propT2 : Propagator := ⟨fun v => if v = 2 then 0 else if v = 2 then 1 else 0, []⟩

theorem sift_up_go_zero (l : List Int) : sift_up_go l 0 = l := by
  unfold sift_up_go
  rw [dif_neg (by omega)]

theorem sift_down_go_short (l : List Int) (h : l.length ≤ 1) :
    sift_down_go l 0 = l := by
  unfold sift_down_go
  rw [dif_neg (by omega)]

theorem rup_run_input_spec_witness :
    ∃ trace : List (Int × Nat × Bool),
      rup_input_trace pfT nfT pogT 2 1
          ([1].foldl (fun p lit => process_fanout pfT nfT p (-lit)) propT0) =
        some (true, propT2, trace)
      ∧ (true = true ↔ ∃ e ∈ trace, e.1 = 2 ∧ e.2.2 = true)
      ∧ (∀ e ∈ trace,
          (((pogT.nodes e.1).type = NodeType.product
            ∨ (pogT.nodes e.1).type = NodeType.skolem) →
            (e.2.2 = true ↔ 1 ≤ e.2.1))
          ∧ ((pogT.nodes e.1).type = NodeType.sum →
            (e.2.2 = true ↔ (pogT.nodes e.1).children.length ≤ e.2.1)))
      ∧ (true = true →
          rup_run_input pfT nfT pogT 2 1 propT0 5 [1] =
            some (.ok (reset_propagator propT2)))
      ∧ (true = false →
          rup_run_input pfT nfT pogT 2 1 propT0 5 [1] =
            some (.error (.implicitDeletionFailed 5))) :=
  rup_run_input_spec pfT nfT pogT 2 1 propT0 5 [1] true propT2 (by
    have hseed : [1].foldl (fun p lit => process_fanout pfT nfT p (-lit)) propT0 =
        (⟨fun v => if v = 2 then 1 else 0, [2]⟩ : Propagator) := by
      show priority_add propT0 2 = _
      unfold priority_add
      rw [if_pos (show propT0.node_event_count 2 = 0 from rfl)]
      show (⟨fun v => if v = 2 then 1 else propT0.node_event_count v,
        sift_up_go [2] 0⟩ : Propagator) = _
      rw [sift_up_go_zero]
      rfl
    have hnext : priority_next (⟨fun v => if v = 2 then 1 else 0, [2]⟩ : Propagator) =
        (2, ⟨fun v => if v = 2 then 1 else 0, []⟩) := by
      unfold priority_next
      rw [if_neg (by decide)]
      show (2, (⟨fun v => if v = 2 then 1 else 0,
        sift_down_go [2].dropLast 0⟩ : Propagator)) = _
      rw [show ([2] : List Int).dropLast = [] from rfl, sift_down_go_short [] (by decide)]
    rw [hseed]
    unfold rup_input_go
    rw [hnext]
    dsimp only
    rw [if_neg (by decide), if_pos (by decide), if_pos rfl]
    rfl)

/-! ## Ring evaluation and regular counting (`ring_evaluate`, `count_regular`)

The `q25` arbitrary-precision rationals live in `q25.c`, which is not
part of this tree; following the spec's description of the
representation (`value * 2^pwr2 * 10^pwr10`, exact arithmetic) the q25
operations are modelled exactly over `ℚ`: `q25_from_32 n = n`,
`q25_mul`/`q25_add` are `*`/`+`, `q25_one_minus x = 1 - x`, and
`q25_scale x p2 p10 = x * 2^p2 * 10^p10`. -/

/-- `q25_scale` (spec-modelled over `ℚ`). -/
def q25_scale (x : ℚ) (p2 p10 : Int) : ℚ := x * 2 ^ p2 * 10 ^ p10

/-- The per-child value read inside the `ring_evaluate` loop: an input
variable's weight or the child node's stored ring value, complemented
(`q25_one_minus`) for a negative literal. -/
def child_ring_value (pog : Pog) (w vals : Int → ℚ) (clit : Int) : ℚ :=
  if clit < 0 then 1 - (if |clit| ≤ pog.V then w |clit| else vals |clit|)
  else if |clit| ≤ pog.V then w |clit| else vals |clit|

/-- One iteration of `ring_evaluate`: PRODUCT starts at 1 and multiplies,
SUM starts at 0 and adds, SKOLEM skips its children (value 1), and a
NONE-typed node in the id range is fatal. -/
def node_ring_eval (pog : Pog) (w vals : Int → ℚ) (id : Int) : Except CErr ℚ :=
  match (pog.nodes id).type with
  | NodeType.skolem => .ok 1
  | NodeType.product =>
    .ok ((pog.nodes id).children.foldl
      (fun val clit => val * child_ring_value pog w vals clit) 1)
  | NodeType.sum =>
    .ok ((pog.nodes id).children.foldl
      (fun val clit => val + child_ring_value pog w vals clit) 0)
  | NodeType.nonode => .error (.invalidNodeId id)

/-- The id loop of `ring_evaluate`, from `input_variable_count + 1` up to
`declared_root`, carrying the per-node ring values and the running
`val`. -/
def ring_eval_go (pog : Pog) (w : Int → ℚ) :
    Nat → Int → (Int → ℚ) → ℚ → Except CErr ((Int → ℚ) × ℚ)
  | 0, _, vals, val => .ok (vals, val)
  | k + 1, id, vals, val =>
    match node_ring_eval pog w vals id with
    | .error e => .error e
    | .ok v =>
      ring_eval_go pog w k (id + 1) (fun i => if i = id then v else vals i) v

/-- `ring_evaluate`: 0 for a declared-unsatisfiable formula, else the
bottom-up evaluation returning the value of the last node processed (the
declared root). -/
def ring_evaluate (unsat : Bool) (pog : Pog) (root : Int) (w : Int → ℚ) :
    Except CErr ℚ :=
  if unsat then .ok 0
  else
    match ring_eval_go pog w (root - pog.V).toNat (pog.V + 1) (fun _ => 0) 0 with
    | .error e => .error e
    | .ok (_, val) => .ok val

/-- The data-variable count of projected mode: the number of show
variables among `1..V`. -/
def show_count (show_vars : Int → Bool) (V : Int) : Int :=
  (((List.range V.toNat).filter (fun i => show_vars ((i : Int) + 1))).length : Int)

/-- `count_regular`: weight every input variable `q25_scale(1, -1, 0)`,
ring-evaluate, and scale the density by `2^nvar` with `nvar` the show
count in projected mode, else the input-variable count. -/
def count_regular (cfg : Cfg) (unsat : Bool) (pog : Pog) (root : Int) :
    Except CErr ℚ :=
  match ring_evaluate unsat pog root (fun _ => q25_scale 1 (-1) 0) with
  | .error e => .error e
  | .ok density =>
    .ok (q25_scale density
      (if cfg.is_pkc then show_count cfg.show_vars pog.V else pog.V) 0)

/-- **C6.** The regular (unweighted) model count equals the bottom-up
ring evaluation with every input variable weighted one half, multiplied
by `2^V` (`V` the input-variable count), or by `2^(number of show
variables)` in projected mode. -/
theorem count_regular_spec (cfg : Cfg) (unsat : Bool) (pog : Pog) (root : Int) :
    count_regular cfg unsat pog root =
      (ring_evaluate unsat pog root (fun _ => (1 : ℚ) / 2)).map
        (fun density => density *
          (2 : ℚ) ^ (if cfg.is_pkc then show_count cfg.show_vars pog.V
                     else pog.V)) := by
  have hw : (fun _ => q25_scale 1 (-1) 0 : Int → ℚ) = fun _ => (1 : ℚ) / 2 := by
    funext v
    unfold q25_scale
    norm_num
  unfold count_regular
  rw [hw]
  cases h : ring_evaluate unsat pog root (fun _ => (1 : ℚ) / 2) with
  | error e => rfl
  | ok density =>
    dsimp only [Except.map]
    unfold q25_scale
    norm_num

end Scpog
